import Mathlib

/-!
# KnoEra backend: chunking, retrieval, model calls, error handling and password reset

A shallow embedding of the text chunker (`chunkText`), the lexical retriever
(`findRelevantChunks`) and of `Document.addChunk` (models/Document.js), with the
properties stated about them, followed by the retry helper and the response parsers of
utils/geminiService.js, the handler of middleware/errorHandler.js and the password reset
of controllers/authController.js and models/User.js.

`utils/textChunker.js` is imported by `controllers/documentController.js` and
`controllers/aiController.js` but is not among the available sources, so the chunker
and the retriever are modelled from the specification text; everything else is
translated from the source files named in the comments.
-/

namespace KnoEra

/-! ## Data model -/

/-- One entry of `documentSchema.chunks` (models/Document.js, lines 30-43). -/
structure Chunk where
  content : String
  pageNumber : Nat
  chunkIndex : Nat
deriving DecidableEq, Repr

/-- A chunk together with the relevance score computed for one query. -/
structure RelevantChunk where
  chunk : Chunk
  score : Nat
deriving DecidableEq, Repr

/-- The invalid-configuration condition signalled by the chunker and the retriever. -/
inductive ConfigError where
  | invalidConfiguration
deriving DecidableEq, Repr

deriving instance DecidableEq for Except

/-! ## Chunker -/

/-- Modelled from the spec: the word tokenizer of the missing `utils/textChunker.js`.
Words are the whitespace-delimited tokens of the text, in order. -/
def splitWords (text : String) : List String :=
  ((text.toList.splitOnP Char.isWhitespace).filter (fun w => !w.isEmpty)).map String.mk

/-- Modelled from the spec: a chunk's content is its words joined by single spaces
(part of the missing `utils/textChunker.js`). -/
def joinWords (ws : List String) : String :=
  " ".intercalate ws

/-- Modelled from the spec: the scan loop of `chunkText` in the missing
`utils/textChunker.js`. Starting at word offset `start`, take `chunkSize` consecutive
words as one chunk, advance the offset by `step = chunkSize - overlap`, and repeat until
the remaining words are exhausted, that is until a chunk has reached the last word; the
final chunk may be short. `chunkIndex` is the 0-based sequence position and `pageNumber`
defaults to 0. The first argument after `step` bounds the number of iterations. -/
def chunkFrom (words : List String) (chunkSize step : Nat) : Nat → Nat → Nat → List Chunk
  | 0, _, _ => []
  | fuel + 1, start, idx =>
    if words.length ≤ start then []
    else
      let c : Chunk := ⟨joinWords ((words.drop start).take chunkSize), 0, idx⟩
      if words.length ≤ start + chunkSize then [c]
      else c :: chunkFrom words chunkSize step fuel (start + step) (idx + 1)

/-- Modelled from the spec: `chunk(text, chunkSize, overlap)`, which the missing
`utils/textChunker.js` exports as `chunkText` (called by `processPDF`). The configuration
is validated first (`chunkSize > 0`, `0 <= overlap < chunkSize`); a text without words
gives no chunk. -/
def chunkText (text : String) (chunkSize overlap : Int) : Except ConfigError (List Chunk) :=
  if chunkSize ≤ 0 ∨ overlap < 0 ∨ chunkSize ≤ overlap then
    .error .invalidConfiguration
  else
    let words := splitWords text
    .ok (chunkFrom words chunkSize.toNat (chunkSize - overlap).toNat words.length 0 0)

/-- The word sequence recovered from a chunk list: all words of the first chunk, and of
every later chunk the words after its first `overlap` words. -/
def reassemble (overlap : Nat) : List Chunk → List String
  | [] => []
  | c :: rest =>
    splitWords c.content ++ rest.flatMap (fun d => (splitWords d.content).drop overlap)

/-- A word is clean when it is non-empty and contains no whitespace. -/
def CleanWord (w : String) : Prop :=
  w.toList ≠ [] ∧ ∀ c ∈ w.toList, Char.isWhitespace c = false

/-- The text of the end-to-end chunking example. -/
def exampleText : String := "The cat sat on the mat. The dog ran in the park."

/-! ## Retriever -/

/-- Modelled from the spec: the tokenizer of `findRelevantChunks` in the missing
`utils/textChunker.js`. The text is lower-cased and its word tokens are its maximal
alphanumeric runs. -/
def tokenize (s : String) : List String :=
  (((s.toList.map Char.toLower).splitOnP (fun c => !c.isAlphanum)).filter
    (fun w => !w.isEmpty)).map String.mk

/-- Modelled from the spec: the query's token set (its unique terms), part of the missing
`utils/textChunker.js`. -/
def queryTerms (query : String) : List String :=
  (tokenize query).dedup

/-- Modelled from the spec: the relevance score of the missing `utils/textChunker.js`,
the count of query terms that occur at least once among the chunk's tokens. -/
def scoreChunk (query : String) (c : Chunk) : Nat :=
  ((queryTerms query).filter (fun t => (tokenize c.content).contains t)).length

/-- Modelled from the spec: the ranking order of the missing `utils/textChunker.js`,
descending score with ties broken by ascending `chunkIndex`. -/
def rankBefore (a b : RelevantChunk) : Prop :=
  b.score < a.score ∨ (a.score = b.score ∧ a.chunk.chunkIndex ≤ b.chunk.chunkIndex)

instance rankBeforeDecidable : DecidableRel rankBefore := fun a b => by
  unfold rankBefore
  infer_instance

instance rankBefore_total : IsTotal RelevantChunk rankBefore :=
  ⟨fun a b => by unfold rankBefore; omega⟩

instance rankBefore_trans : IsTrans RelevantChunk rankBefore :=
  ⟨fun a b c => by unfold rankBefore; omega⟩

/-- Modelled from the spec: `findRelevantChunks(chunks, query, topK)` of the missing
`utils/textChunker.js`. A non-positive `topK` is a configuration error. Every chunk is
scored; the chunks with a positive score are ranked and the first `topK` of them are
returned; when every chunk scores 0 the first `topK` chunks are returned in their
original order. -/
def findRelevantChunks (chunks : List Chunk) (query : String) (topK : Int) :
    Except ConfigError (List RelevantChunk) :=
  if topK ≤ 0 then
    .error .invalidConfiguration
  else
    let scored := chunks.map (fun c => (⟨c, scoreChunk query c⟩ : RelevantChunk))
    let positive := scored.filter (fun r => decide (0 < r.score))
    if positive.isEmpty then .ok (scored.take topK.toNat)
    else .ok ((positive.insertionSort rankBefore).take topK.toNat)

/-! ## Document chunk list -/

/-- Values of `documentSchema.status` (models/Document.js, lines 52-56). -/
inductive DocStatus where
  | processing
  | completed
  | failed
deriving DecidableEq, Repr

/-- The in-memory document record of models/Document.js (`documentSchema`), without the
object ids and timestamps. -/
structure Document where
  title : String
  filePath : String
  fileUrl : String
  fileSize : Nat
  extractedText : String
  chunks : List Chunk
  status : DocStatus
deriving DecidableEq, Repr

/-- The method `addChunk(content, pageNumber = 0)` of models/Document.js (lines 86-95):
the new chunk takes the current length of `chunks` as its `chunkIndex` and is pushed at
the end. An omitted `pageNumber` is `none` and defaults to 0. The method then hands the
record to `save()`, the persistence layer, which is outside this model. -/
def Document.addChunk (doc : Document) (content : String) (pageNumber : Option Nat) :
    Document :=
  let chunkIndex := doc.chunks.length
  { doc with chunks := doc.chunks ++ [⟨content, pageNumber.getD 0, chunkIndex⟩] }

/-- A document record with no chunks yet. -/
def Document.fresh (title filePath fileUrl : String) (fileSize : Nat) : Document :=
  ⟨title, filePath, fileUrl, fileSize, "", [], DocStatus.processing⟩

/-- Apply a sequence of `addChunk` calls, in order. -/
def Document.addChunks (doc : Document) (adds : List (String × Option Nat)) : Document :=
  adds.foldl (fun d a => d.addChunk a.1 a.2) doc

/-! ## Call sites of the chunker and the retriever -/

/-- The body of `processPDF` (controllers/documentController.js, lines 72-95). The text
extraction is an external call whose outcome is the argument `extracted`. The chunks are
`chunkText(text, 500, 50)`; on success the document gets the text, the chunks and the
status `completed`, and any thrown error gives the status `failed`. -/
def processPDF (doc : Document) (extracted : Except String String) : Document :=
  match extracted with
  | .error _ => { doc with status := DocStatus.failed }
  | .ok text =>
    match chunkText text 500 50 with
    | .ok chunks =>
      { doc with extractedText := text, chunks := chunks, status := DocStatus.completed }
    | .error _ => { doc with status := DocStatus.failed }

/-- The retrieval call of `chat` (controllers/aiController.js, line 368):
`findRelevantChunks(document.chunks, question, 3)`. -/
def chatRelevantChunks (doc : Document) (question : String) :
    Except ConfigError (List RelevantChunk) :=
  findRelevantChunks doc.chunks question 3

/-- The retrieval call of `explainConcept` (controllers/aiController.js, line 470):
`findRelevantChunks(document.chunks, concept, 3)`. -/
def explainConceptRelevantChunks (doc : Document) (concept : String) :
    Except ConfigError (List RelevantChunk) :=
  findRelevantChunks doc.chunks concept 3

/-! ## Calling the model with retries (utils/geminiService.js) -/

/-- An error thrown by a model call: its `status` property, if any, and its message. -/
structure ApiError where
  status : Option Nat
  message : String
deriving DecidableEq, Repr

/-- The outcome of one model call: the response text, or a thrown error. -/
inductive ModelOutcome where
  | text (t : String)
  | failure (e : ApiError)
deriving DecidableEq, Repr

/-- What `generateWithRetry` does that is visible from outside: model calls (numbered by
the loop index) and waits (in milliseconds). -/
inductive RetryEvent where
  | call (attempt : Nat)
  | wait (ms : Nat)
deriving DecidableEq, Repr

/-- The result of a run of `generateWithRetry`: the returned text or the thrown value
(`none` stands for `undefined`), and the calls and waits made, in order. -/
structure RetryRun where
  result : Except (Option ApiError) String
  trace : List RetryEvent
deriving DecidableEq, Repr

/-- The error raised at line 29 when the response text is empty. -/
def emptyResponseError : ApiError :=
  ⟨none, "AI returned an empty response."⟩

/-- The test of line 35: the status is 503 or 429. -/
def isRetryable (e : ApiError) : Bool :=
  e.status == some 503 || e.status == some 429

/-- What the `try` block of lines 23-29 produces from the outcome of the model call: the
text when it is non-empty, otherwise a thrown error. -/
def attemptResult (o : ModelOutcome) : Except ApiError String :=
  match o with
  | .text t => if t ≠ "" then .ok t else .error emptyResponseError
  | .failure e => .error e

/-- The `for` loop of `generateWithRetry` (lines 22-44). The first argument is the number
of iterations left (`maxRetries - i`), then the loop index `i`, `lastError` and the trace
so far. `model i` is the outcome of the model call made in iteration `i` and `jitter i`
the random part of the delay of that iteration. -/
def retryLoop (model : Nat → ModelOutcome) (jitter : Nat → Nat) :
    Nat → Nat → Option ApiError → List RetryEvent → RetryRun
  | 0, _, lastError, trace => ⟨.error lastError, trace⟩
  | remaining + 1, i, _, trace =>
    match attemptResult (model i) with
    | .ok t => ⟨.ok t, trace ++ [RetryEvent.call i]⟩
    | .error e =>
      if isRetryable e then
        retryLoop model jitter remaining (i + 1) (some e)
          (trace ++ [RetryEvent.call i, RetryEvent.wait (2 ^ i * 2000 + jitter i)])
      else ⟨.error (some e), trace ++ [RetryEvent.call i]⟩

/-- The helper `generateWithRetry(prompt, modelName, maxRetries)` of
utils/geminiService.js (lines 20-45). The prompt and the model name only reach the
model, whose outcomes are given by `model`. -/
def generateWithRetry (model : Nat → ModelOutcome) (jitter : Nat → Nat) (maxRetries : Nat) :
    RetryRun :=
  retryLoop model jitter maxRetries 0 none []

/-- The number of model calls in a trace. -/
def callCount (trace : List RetryEvent) : Nat :=
  trace.countP (fun ev => match ev with
    | .call _ => true
    | .wait _ => false)

/-- The number of waits in a trace. -/
def waitCount (trace : List RetryEvent) : Nat :=
  trace.countP (fun ev => match ev with
    | .call _ => false
    | .wait _ => true)

/-- The calls and waits of `k` consecutive iterations, starting at index `i`, that all end
in a retry. -/
def retriedIterations (jitter : Nat → Nat) (i k : Nat) : List RetryEvent :=
  (List.range k).flatMap
    (fun j => [RetryEvent.call (i + j), RetryEvent.wait (2 ^ (i + j) * 2000 + jitter (i + j))])

/-- The model call of iteration `j` fails with status 429 or 503. -/
def FailsRetryable (model : Nat → ModelOutcome) (j : Nat) : Prop :=
  ∃ e, model j = ModelOutcome.failure e ∧ isRetryable e = true

/-- A model for examples: the first `n` calls fail with status 503, the next outcome
is `o`. -/
def failingThen (n : Nat) (o : ModelOutcome) (i : Nat) : ModelOutcome :=
  if i < n then ModelOutcome.failure ⟨some 503, "Service Unavailable"⟩ else o

/-! ## Parsing the model response (utils/geminiService.js) -/

/-- The characters removed by `String.prototype.trim`: the ECMAScript white space and
line terminator code points. -/
def isJsWhitespace (c : Char) : Bool :=
  c.toNat == 0x09 || c.toNat == 0x0A || c.toNat == 0x0B || c.toNat == 0x0C ||
  c.toNat == 0x0D || c.toNat == 0x20 || c.toNat == 0xA0 || c.toNat == 0x1680 ||
  (0x2000 ≤ c.toNat && c.toNat ≤ 0x200A) || c.toNat == 0x2028 || c.toNat == 0x2029 ||
  c.toNat == 0x202F || c.toNat == 0x205F || c.toNat == 0x3000 || c.toNat == 0xFEFF

/-- The method `trim()` on the characters of a string. -/
def jsTrim (s : List Char) : List Char :=
  ((s.dropWhile isJsWhitespace).reverse.dropWhile isJsWhitespace).reverse

/-- The call `split("---")` on the characters of a string: the pieces between successive
occurrences of three hyphens, scanned from the left. -/
def splitDashes : List Char → List (List Char)
  | [] => [[]]
  | '-' :: '-' :: '-' :: rest => [] :: splitDashes rest
  | c :: rest => (splitDashes rest).modifyHead (fun b => c :: b)

/-- The call `split('\n')` on the characters of a string. -/
def splitLines (s : List Char) : List (List Char) :=
  s.splitOnP (fun c => c == '\n')

/-- The value `line.substring(n).trim()`. -/
def fieldAfter (n : Nat) (line : List Char) : String :=
  String.mk (jsTrim (line.drop n))

/-- The value `line.substring(2).trim().toLowerCase()`. Only its comparison with the
three level names is used, and for that only the ASCII letters matter. -/
def levelAfter (line : List Char) : String :=
  String.mk ((jsTrim (line.drop 2)).map Char.toLower)

/-- The list `['easy', 'medium', 'hard']` of lines 88 and 160. -/
def difficultyLevels : List String := ["easy", "medium", "hard"]

/-- A flashcard as returned by `generateFlashcards`. -/
structure Flashcard where
  question : String
  answer : String
  difficulty : String
deriving DecidableEq, Repr

/-- The body of the loop over the lines of a flashcard block (lines 81-92). -/
def flashcardLine (st : Flashcard) (line : List Char) : Flashcard :=
  if "Q:".toList.isPrefixOf line then { st with question := fieldAfter 2 line }
  else if "A:".toList.isPrefixOf line then { st with answer := fieldAfter 2 line }
  else if "D:".toList.isPrefixOf line then
    if difficultyLevels.contains (levelAfter line) then
      { st with difficulty := levelAfter line }
    else st
  else st

/-- The blocks of a response: `generatedText.split("---").filter(c => c.trim())`. -/
def responseBlocks (generatedText : String) : List (List Char) :=
  (splitDashes generatedText.toList).filter (fun c => !(jsTrim c).isEmpty)

/-- The treatment of one flashcard block (lines 78-96): the card that is pushed, if
any. -/
def parseFlashcardBlock (card : List Char) : Option Flashcard :=
  let st := (splitLines (jsTrim card)).foldl flashcardLine ⟨"", "", "medium"⟩
  if st.question ≠ "" ∧ st.answer ≠ "" then some st else none

/-- The parsing part of `generateFlashcards` (lines 73-99). -/
def parseFlashcards (generatedText : String) (count : Nat) : List Flashcard :=
  ((responseBlocks generatedText).foldl
    (fun flashcard card =>
      match parseFlashcardBlock card with
      | some c => flashcard ++ [c]
      | none => flashcard) []).take count

/-- The message of the error thrown by the `catch` blocks of the generators: the usage
limit message for status 429, otherwise the message of the error or the fallback. The
thrown value `undefined` has no `message` to read. -/
def wrapApiError (fallback : String) (thrown : Option ApiError) : String :=
  match thrown with
  | none => "TypeError: Cannot read properties of undefined (reading 'message')"
  | some e =>
    if e.status = some 429 then
      "AI usage limit reached for today. Please try again later or upgrade your plan."
    else if e.message ≠ "" then e.message else fallback

/-- The export `generateFlashcards(text, count)` of utils/geminiService.js
(lines 54-108), with the default `maxRetries = 3` of `generateWithRetry`. -/
def generateFlashcards (model : Nat → ModelOutcome) (jitter : Nat → Nat) (text : String)
    (count : Nat) : Except String (List Flashcard) :=
  if (jsTrim text.toList).isEmpty then
    .error "Document content is empty. Cannot generate flashcards."
  else
    match (generateWithRetry model jitter 3).result with
    | .ok generatedText => .ok (parseFlashcards generatedText count)
    | .error thrown => .error (wrapApiError "Failed to generate flashcards" thrown)

/-- A quiz question as returned by `generateQuiz`. -/
structure QuizQuestion where
  question : String
  options : List String
  correctAnswer : String
  explanation : String
  difficulty : String
deriving DecidableEq, Repr

/-- The test `trimmed.match(/^O\d:/)`. -/
def isOptionLine (trimmed : List Char) : Bool :=
  match trimmed with
  | 'O' :: d :: ':' :: _ => d.isDigit
  | _ => false

/-- The body of the loop over the lines of a quiz block (lines 148-164). -/
def quizLine (st : QuizQuestion) (line : List Char) : QuizQuestion :=
  if "Q:".toList.isPrefixOf (jsTrim line) then
    { st with question := fieldAfter 2 (jsTrim line) }
  else if isOptionLine (jsTrim line) then
    { st with options := st.options ++ [fieldAfter 3 (jsTrim line)] }
  else if "C:".toList.isPrefixOf (jsTrim line) then
    { st with correctAnswer := fieldAfter 2 (jsTrim line) }
  else if "E:".toList.isPrefixOf (jsTrim line) then
    { st with explanation := fieldAfter 2 (jsTrim line) }
  else if "D:".toList.isPrefixOf (jsTrim line) then
    if difficultyLevels.contains (levelAfter (jsTrim line)) then
      { st with difficulty := levelAfter (jsTrim line) }
    else st
  else st

/-- The treatment of one quiz block (lines 145-168): the question that is pushed, if
any. -/
def parseQuizBlock (block : List Char) : Option QuizQuestion :=
  let st := (splitLines (jsTrim block)).foldl quizLine ⟨"", [], "", "", "medium"⟩
  if st.question ≠ "" ∧ 2 ≤ st.options.length ∧ st.correctAnswer ≠ "" then some st else none

/-- The parsing part of `generateQuiz` (lines 140-171). -/
def parseQuiz (generatedText : String) (numQuestions : Nat) : List QuizQuestion :=
  ((responseBlocks generatedText).foldl
    (fun questions block =>
      match parseQuizBlock block with
      | some q => questions ++ [q]
      | none => questions) []).take numQuestions

/-- The export `generateQuiz(text, numQuestions)` of utils/geminiService.js
(lines 117-179), with the default `maxRetries = 3` of `generateWithRetry`. -/
def generateQuiz (model : Nat → ModelOutcome) (jitter : Nat → Nat) (text : String)
    (numQuestions : Nat) : Except String (List QuizQuestion) :=
  if (jsTrim text.toList).isEmpty then
    .error "Document content is empty. Cannot generate quiz."
  else
    match (generateWithRetry model jitter 3).result with
    | .ok generatedText => .ok (parseQuiz generatedText numQuestions)
    | .error thrown => .error (wrapApiError "Failed to generate Quiz" thrown)

/-- A response with three flashcard blocks, the second without an answer. -/
def exampleCards : String :=
  "Q: What is a cell?\nA: The unit of life\nD: Easy\n---\nQ: No answer here\n---\nQ: Why?\nA: Because\nD: tricky"

/-- A response with two quiz blocks, the second with a single option. -/
def exampleQuiz : String :=
  "Q: 1+1?\n O1: 1\nO2: 2\nC: 2\nE: sum\nD: HARD\n---\nQ: 2+2?\nO1: 4\nC: 4"

/-! ## Error handler (middleware/errorHandler.js) -/

/-- The `code` property of an error: a number (MongoDB) or a string (multer, Node). -/
inductive ErrCode where
  | num (n : Int)
  | str (s : String)
deriving DecidableEq, Repr

/-- The properties of a thrown error that `errorHandler` reads. `keyValue` holds the keys
of `err.keyValue` in order, `errors` the `message` of each value of `err.errors`; an
absent property is `none`. -/
structure AppError where
  name : Option String
  message : Option String
  statusCode : Option Nat
  code : Option ErrCode
  keyValue : Option (List String)
  errors : Option (List (Option String))
  stack : Option String
deriving DecidableEq, Repr

/-- The JSON body sent by `errorHandler` (lines 57-62). -/
structure ErrorBody where
  success : Bool
  error : String
  statusCode : Nat
  stack : Option String
deriving DecidableEq, Repr

/-- The HTTP status and the JSON body of the answer. -/
structure ErrorResponse where
  status : Nat
  body : ErrorBody
deriving DecidableEq, Repr

/-- The test `err.code == 11000` (line 13). The loose equality converts a string code to
a number, which is the language primitive `stringToNumber`. -/
def codeIs11000 (stringToNumber : String → Option Int) (code : Option ErrCode) : Bool :=
  match code with
  | none => false
  | some (.num n) => n == 11000
  | some (.str s) => stringToNumber s == some 11000

/-- The handler `errorHandler(err, req, res, next)` of middleware/errorHandler.js
(lines 1-64), without the logging. The tests are made one after the other and each one
that holds overwrites the status and the message. The result is `none` when the handler
itself throws, at `Object.keys(err.keyValue)` or `Object.values(err.errors)` on an absent
property. `development` is the test `NODE_ENV === "development"`. -/
def errorHandler (stringToNumber : String → Option Int) (development : Bool)
    (err : AppError) : Option ErrorResponse := do
  let mut statusCodes := match err.statusCode with
    | some n => if n = 0 then 500 else n
    | none => 500
  let mut message := match err.message with
    | some m => if m = "" then "Something went wrong" else m
    | none => "Something went wrong"
  if err.name = some "CastError" then
    message := "Resource not Found"
    statusCodes := 404
  if codeIs11000 stringToNumber err.code then
    let keys ← err.keyValue
    let field := keys.head?.getD "undefined"
    message := field ++ " already exists"
    statusCodes := 400
  if err.name = some "ValidationError" then
    let messages ← err.errors
    message := ", ".intercalate (messages.map (fun m => m.getD ""))
    statusCodes := 400
  if err.code = some (ErrCode.str "LIMIT_FILE_SIZE") then
    message := "File size is too large"
    statusCodes := 400
  if err.name = some "JsonWebTokenError" then
    message := "Invalid token"
    statusCodes := 401
  if err.name = some "TokenExpiredError" then
    message := "Token expired"
    statusCodes := 401
  return ⟨statusCodes, ⟨false, message, statusCodes, if development then err.stack else none⟩⟩

/-- The status and message of the last rule of `errorHandler` that applies to an error,
the rules taken in source order; the defaults when no rule applies. -/
def lastRule (stringToNumber : String → Option Int) (err : AppError) : Nat × String :=
  if err.name = some "TokenExpiredError" then (401, "Token expired")
  else if err.name = some "JsonWebTokenError" then (401, "Invalid token")
  else if err.code = some (ErrCode.str "LIMIT_FILE_SIZE") then (400, "File size is too large")
  else if err.name = some "ValidationError" then
    (400, ", ".intercalate ((err.errors.getD []).map (fun m => m.getD "")))
  else if codeIs11000 stringToNumber err.code then
    (400, ((err.keyValue.getD []).head?.getD "undefined") ++ " already exists")
  else if err.name = some "CastError" then (404, "Resource not Found")
  else
    ((match err.statusCode with
      | some n => if n = 0 then 500 else n
      | none => 500),
     (match err.message with
      | some m => if m = "" then "Something went wrong" else m
      | none => "Something went wrong"))

/-- An error named `CastError` that also carries the duplicate key code 11000. -/
def castErrorWithDuplicateKey : AppError :=
  ⟨some "CastError", some "Cast to ObjectId failed", none, some (ErrCode.num 11000),
    some ["email"], none, none⟩

/-- A duplicate key error without the `keyValue` property. -/
def duplicateKeyWithoutKeyValue : AppError :=
  ⟨some "MongoServerError", some "E11000 duplicate key error", none, some (ErrCode.num 11000),
    none, none, none⟩

/-! ## Password reset (controllers/authController.js, models/User.js) -/

/-- The library functions the password reset relies on: the SHA-256 hex digest of
`crypto`, the salted password hash of `bcryptjs` used by the `pre("save")` hook, and the
string method `toLowerCase`. -/
structure Runtime where
  sha256 : String → String
  bcryptHash : String → String
  toLowerCase : String → String

/-- A record of the users collection (`userSchema`, models/User.js), with the fields the
password reset reads and writes; `id` is the `_id` of the record. -/
structure User where
  id : Nat
  username : String
  email : String
  password : String
  resetPasswordToken : Option String
  resetPasswordExpire : Option Nat
deriving DecidableEq, Repr

/-- The effect of `user.save()` on the collection: the record with the `_id` of `user` is
replaced. -/
def saveUser (db : List User) (user : User) : List User :=
  db.map (fun v => if v.id = user.id then user else v)

/-- The method `getResetPasswordToken` of models/User.js (lines 94-108). `resetToken` is
the value of `crypto.randomBytes(20).toString('hex')` and `now` that of `Date.now()`. The
record gets the digest of the token and the expiry time; the unhashed token is
returned. -/
def User.getResetPasswordToken (rt : Runtime) (now : Nat) (resetToken : String)
    (user : User) : User × String :=
  ({ user with
      resetPasswordToken := some (rt.sha256 resetToken),
      resetPasswordExpire := some (now + 10 * 60 * 1000) },
    resetToken)

/-- The JSON answers of the password reset handlers: the HTTP status and the fields of
the body that are present. -/
structure AuthResponse where
  status : Nat
  success : Bool
  error : Option String
  message : Option String
  statusCode : Option Nat
deriving DecidableEq, Repr

/-- The arguments of a call of `sendPasswordResetEmail`. -/
structure ResetMail where
  email : String
  resetToken : String
  username : String
deriving DecidableEq, Repr

/-- What one call of `forgotPassword` takes from outside: the clock, the random token and
whether `sendPasswordResetEmail` resolves. -/
structure ForgotEnv where
  now : Nat
  resetToken : String
  mailOk : Bool
deriving DecidableEq, Repr

/-- The outcome of `forgotPassword`: the collection, the answer and the mail it tried to
send. -/
structure ForgotResult where
  db : List User
  response : AuthResponse
  mail : Option ResetMail
deriving DecidableEq, Repr

/-- The answer of lines 223-226 and 250-253. -/
def resetLinkNotice : AuthResponse :=
  ⟨200, true, none,
    some "If an account exists with this email, you will receive a password reset link shortly.",
    none⟩

/-- The query `User.findOne({ email: email.toLowerCase() })` of line 219. -/
def findUserByEmail (rt : Runtime) (db : List User) (email : String) : Option User :=
  db.find? (fun u => u.email == rt.toLowerCase email)

/-- The handler `forgotPassword` of controllers/authController.js (lines 206-258). The
body field `email` is `none` when absent. -/
def forgotPassword (rt : Runtime) (env : ForgotEnv) (db : List User)
    (email : Option String) : ForgotResult :=
  match email with
  | none => ⟨db, ⟨400, false, some "Please provide your email address", none, some 400⟩, none⟩
  | some email =>
    if email = "" then
      ⟨db, ⟨400, false, some "Please provide your email address", none, some 400⟩, none⟩
    else
      match findUserByEmail rt db email with
      | none => ⟨db, resetLinkNotice, none⟩
      | some user =>
        let generated := user.getResetPasswordToken rt env.now env.resetToken
        let db1 := saveUser db generated.1
        let mail : ResetMail := ⟨generated.1.email, generated.2, generated.1.username⟩
        if env.mailOk then ⟨db1, resetLinkNotice, some mail⟩
        else
          let cleared : User :=
            { generated.1 with resetPasswordToken := none, resetPasswordExpire := none }
          ⟨saveUser db1 cleared,
            ⟨500, false, some "Failed to send reset email. Please try again later.", none,
              some 500⟩,
            some mail⟩

/-- The value of `password.length`: the number of UTF-16 code units. -/
def utf16Length (s : String) : Nat :=
  (s.toList.map (fun c => if c.toNat < 0x10000 then 1 else 2)).sum

/-- The filter of the query of lines 273-276: the stored digest equals the digest of the
URL token and the expiry time is greater than `now`. -/
def holdsValidToken (digest : String) (now : Nat) (u : User) : Bool :=
  u.resetPasswordToken == some digest &&
    (match u.resetPasswordExpire with
      | some expire => decide (now < expire)
      | none => false)

/-- The answer of lines 279-283. -/
def invalidTokenResponse : AuthResponse :=
  ⟨400, false, some "Invalid or expired reset token", none, some 400⟩

/-- The handler `resetPassword` of controllers/authController.js (lines 264-334).
`resetToken` is the URL parameter, `now` the value of `Date.now()`, and the body fields
`password` and `confirmPassword` are `none` when absent. The confirmation mail does not
change the answer. -/
def resetPassword (rt : Runtime) (now : Nat) (db : List User) (resetToken : String)
    (password confirmPassword : Option String) : List User × AuthResponse :=
  let resetPasswordToken := rt.sha256 resetToken
  match db.find? (holdsValidToken resetPasswordToken now) with
  | none => (db, invalidTokenResponse)
  | some user =>
    if password.getD "" = "" ∨ confirmPassword.getD "" = "" then
      (db, ⟨400, false, some "Please provide both password and confirm password", none,
        some 400⟩)
    else if password ≠ confirmPassword then
      (db, ⟨400, false, some "Passwords do not match", none, some 400⟩)
    else if utf16Length (password.getD "") < 6 then
      (db, ⟨400, false, some "Password must be at least 6 characters", none, some 400⟩)
    else
      (saveUser db
        { user with
          password := rt.bcryptHash (password.getD ""),
          resetPasswordToken := none,
          resetPasswordExpire := none },
        ⟨200, true, none,
          some "Password reset successful. You can now login with your new password.", none⟩)

/-- A runtime for examples; the digest and the hash only mark their argument. -/
def exampleRuntime : Runtime :=
  ⟨fun s => "sha256:" ++ s, fun s => "bcrypt:" ++ s,
    fun s => String.mk (s.toList.map Char.toLower)⟩

/-- A collection with one user. -/
def exampleUsers : List User :=
  [⟨1, "alice", "alice@example.com", "bcrypt:secret1", none, none⟩]

/-- One call of `resetPassword`: the value of `Date.now()` and the body fields. -/
structure ResetAttempt where
  now : Nat
  password : Option String
  confirmPassword : Option String
deriving DecidableEq, Repr

/-- Successive calls of `resetPassword` with the same URL token, each made on the
collection left by the previous one: the final collection and the answers in order. -/
def resetAttempts (rt : Runtime) (resetToken : String) :
    List User → List ResetAttempt → List User × List AuthResponse
  | db, [] => (db, [])
  | db, a :: rest =>
    let r := resetPassword rt a.now db resetToken a.password a.confirmPassword
    let rs := resetAttempts rt resetToken r.1 rest
    (rs.1, r.2 :: rs.2)

/-- The records that store the digest all belong to one user. -/
def TokenOwnedByOne (digest : String) (db : List User) : Prop :=
  ∀ u ∈ db, ∀ v ∈ db,
    u.resetPasswordToken = some digest → v.resetPasswordToken = some digest → u.id = v.id

/-- No record stores the digest. -/
def NoTokenHolder (digest : String) (db : List User) : Prop :=
  ∀ u ∈ db, u.resetPasswordToken ≠ some digest

/-- The number of answers with status 200. -/
def successCount (answers : List AuthResponse) : Nat :=
  answers.countP (fun r => r.status == 200)

/-- The collection of the examples after `forgotPassword` has stored the digest of the
token "abcd" at time 1000. -/
def exampleUsersWithToken : List User :=
  [⟨1, "alice", "alice@example.com", "bcrypt:secret1", some "sha256:abcd", some 601000⟩]

/-- A completed document with four chunks, for the examples of the call sites. -/
def exampleDocument : Document :=
  ⟨"notes", "uploads/notes.pdf", "http://localhost:8000/uploads/documents/notes.pdf", 10,
    "", [⟨"The cat sat", 0, 0⟩, ⟨"a dog and a cat", 0, 1⟩, ⟨"dog cat cat", 0, 2⟩,
      ⟨"one more cat", 0, 3⟩], DocStatus.completed⟩

/-! ## Words: splitting and joining -/

theorem intercalate_go_toList (s : String) (as : List String) (acc : String) :
    (String.intercalate.go acc s as).toList =
      acc.toList ++ as.flatMap (fun a => s.toList ++ a.toList) := by
  simp only [String.toList]
  induction as generalizing acc with
  | nil => simp [String.intercalate.go]
  | cons a as ih => simp [String.intercalate.go, ih, List.append_assoc]

theorem joinWords_nil : joinWords [] = "" := rfl

theorem joinWords_singleton (w : String) : joinWords [w] = w := rfl

theorem joinWords_cons_cons_toList (w v : String) (ws : List String) :
    (joinWords (w :: v :: ws)).toList = w.toList ++ ' ' :: (joinWords (v :: ws)).toList := by
  have h := intercalate_go_toList " " ws (w ++ " " ++ v)
  have h2 := intercalate_go_toList " " ws v
  simp only [joinWords, String.intercalate, String.intercalate.go, h, h2]
  simp [String.toList, List.append_assoc]

theorem splitOnP_pieces_clean (p : Char → Bool) (xs : List Char) :
    ∀ l ∈ xs.splitOnP p, ∀ c ∈ l, p c = false := by
  induction xs with
  | nil => simp [List.splitOnP_nil]
  | cons x xs ih =>
    rw [List.splitOnP_cons]
    by_cases hx : p x = true
    · simp only [hx, if_true]
      intro l hl
      rcases List.mem_cons.1 hl with h | h
      · subst h; simp
      · exact ih l h
    · have hne := List.splitOnP_ne_nil p xs
      cases hs : xs.splitOnP p with
      | nil => exact absurd hs hne
      | cons y ys =>
        rw [hs] at ih
        simp only [hx, List.modifyHead]
        intro l hl c hc
        simp only [Bool.false_eq_true, if_false, List.mem_cons] at hl
        rcases hl with h | h
        · subst h
          rcases List.mem_cons.1 hc with h | h
          · subst h; simpa using hx
          · exact ih y (List.mem_cons_self _ _) c h
        · exact ih l (List.mem_cons_of_mem _ h) c hc

theorem splitWords_clean (text : String) : ∀ w ∈ splitWords text, CleanWord w := by
  intro w hw
  simp only [splitWords, List.mem_map, List.mem_filter] at hw
  obtain ⟨l, ⟨hl, hne⟩, rfl⟩ := hw
  refine ⟨?_, ?_⟩
  · intro h
    simp [String.toList] at h
    simp [h] at hne
  · intro c hc
    exact splitOnP_pieces_clean _ _ l hl c (by simpa [String.toList] using hc)

theorem splitWords_joinWords (ws : List String) (h : ∀ w ∈ ws, CleanWord w) :
    splitWords (joinWords ws) = ws := by
  induction ws with
  | nil => simp [splitWords, joinWords_nil, String.toList, List.splitOnP_nil]
  | cons w ws ih =>
    have hw := h w (List.mem_cons_self _ _)
    have hne : w.toList.isEmpty = false := by
      cases hd : w.toList with
      | nil => exact absurd hd hw.1
      | cons a as => rfl
    have hsp : ∀ x ∈ w.toList, ¬ Char.isWhitespace x = true :=
      fun x hx => by simp [hw.2 x hx]
    cases ws with
    | nil =>
      rw [joinWords_singleton]
      have h1 : w.toList.splitOnP Char.isWhitespace = [w.toList] :=
        List.splitOnP_eq_single Char.isWhitespace w.toList hsp
      simp only [splitWords, h1, List.filter_cons, hne, Bool.not_false, if_true,
        List.filter_nil, List.map_cons, List.map_nil]
      rfl
    | cons v vs =>
      have ih2 := ih (fun x hx => h x (List.mem_cons_of_mem _ hx))
      have h1 := List.splitOnP_first Char.isWhitespace w.toList hsp ' ' (by decide)
        (joinWords (v :: vs)).toList
      simp only [splitWords] at ih2 ⊢
      rw [joinWords_cons_cons_toList, h1]
      simp only [List.filter_cons, hne, Bool.not_false, if_true, List.map_cons, ih2]
      rfl

/-! ## The scan loop -/

theorem chunkFrom_getElem? (words : List String) (chunkSize step : Nat) :
    ∀ (fuel start idx k : Nat) (c : Chunk),
      (chunkFrom words chunkSize step fuel start idx)[k]? = some c →
      c = ⟨joinWords ((words.drop (start + k * step)).take chunkSize), 0, idx + k⟩ ∧
        start + k * step < words.length := by
  intro fuel
  induction fuel with
  | zero => intro start idx k c h; simp [chunkFrom] at h
  | succ fuel ih =>
    intro start idx k c h
    unfold chunkFrom at h
    by_cases h1 : words.length ≤ start
    · simp [h1] at h
    · by_cases h2 : words.length ≤ start + chunkSize
      · simp only [h1, h2, if_false, if_true] at h
        cases k with
        | zero =>
          simp at h
          subst h
          exact ⟨by simp, by omega⟩
        | succ k => simp at h
      · simp only [h1, h2, if_false] at h
        cases k with
        | zero =>
          simp at h
          subst h
          exact ⟨by simp, by omega⟩
        | succ k =>
          simp only [List.getElem?_cons_succ] at h
          obtain ⟨hc, hlt⟩ := ih (start + step) (idx + 1) k c h
          have e : start + step + k * step = start + (k + 1) * step := by ring
          rw [e] at hc hlt
          have e2 : idx + 1 + k = idx + (k + 1) := by ring
          rw [e2] at hc
          exact ⟨hc, hlt⟩

theorem chunkFrom_not_last (words : List String) (chunkSize step : Nat) :
    ∀ (fuel start idx k : Nat),
      k + 1 < (chunkFrom words chunkSize step fuel start idx).length →
      start + k * step + chunkSize < words.length := by
  intro fuel
  induction fuel with
  | zero => intro start idx k h; simp [chunkFrom] at h
  | succ fuel ih =>
    intro start idx k h
    unfold chunkFrom at h
    by_cases h1 : words.length ≤ start
    · simp [h1] at h
    · by_cases h2 : words.length ≤ start + chunkSize
      · simp [h1, h2] at h
      · simp only [h1, h2, if_false, List.length_cons] at h
        cases k with
        | zero => simp; omega
        | succ k =>
          have := ih (start + step) (idx + 1) k (by omega)
          have e : start + step + k * step = start + (k + 1) * step := by ring
          rw [e] at this
          exact this

theorem chunkFrom_eq_nil_iff (words : List String) (chunkSize step fuel start idx : Nat)
    (hf : words.length - start ≤ fuel) :
    chunkFrom words chunkSize step fuel start idx = [] ↔ words.length ≤ start := by
  cases fuel with
  | zero => simp [chunkFrom]; omega
  | succ f =>
    unfold chunkFrom
    by_cases h1 : words.length ≤ start
    · simp [h1]
    · by_cases h2 : words.length ≤ start + chunkSize <;> simp [h1, h2]

theorem chunkFrom_reaches_end (words : List String) (chunkSize step : Nat) (hstep : 1 ≤ step)
    (hle : step ≤ chunkSize) :
    ∀ (fuel start idx k : Nat), words.length - start ≤ fuel →
      (chunkFrom words chunkSize step fuel start idx).length = k + 1 →
      words.length ≤ start + k * step + chunkSize := by
  intro fuel
  induction fuel with
  | zero => intro start idx k _ h; simp [chunkFrom] at h
  | succ fuel ih =>
    intro start idx k hf h
    unfold chunkFrom at h
    by_cases h1 : words.length ≤ start
    · simp [h1] at h
    · by_cases h2 : words.length ≤ start + chunkSize
      · simp only [h1, h2, if_false, if_true, List.length_singleton] at h
        have : k = 0 := by omega
        subst this
        simpa using h2
      · simp only [h1, h2, if_false, List.length_cons] at h
        cases k with
        | zero =>
          exfalso
          have hz : (chunkFrom words chunkSize step fuel (start + step) (idx + 1)).length = 0 := by
            omega
          have hnil := List.length_eq_zero.1 hz
          have := (chunkFrom_eq_nil_iff words chunkSize step fuel (start + step) (idx + 1)
            (by omega)).1 hnil
          omega
        | succ k =>
          have := ih (start + step) (idx + 1) k (by omega) (by omega)
          have e : start + step + k * step = start + (k + 1) * step := by ring
          rw [e] at this
          exact this

theorem chunkFrom_indices (words : List String) (chunkSize step : Nat) :
    ∀ (fuel start idx : Nat),
      (chunkFrom words chunkSize step fuel start idx).map Chunk.chunkIndex =
        List.range' idx (chunkFrom words chunkSize step fuel start idx).length := by
  intro fuel
  induction fuel with
  | zero => intro start idx; simp [chunkFrom]
  | succ fuel ih =>
    intro start idx
    unfold chunkFrom
    by_cases h1 : words.length ≤ start
    · simp [h1]
    · by_cases h2 : words.length ≤ start + chunkSize
      · simp [h1, h2, List.range']
      · simp only [h1, h2, if_false, List.map_cons, List.length_cons, List.range'_succ, ih]

theorem splitWords_slice (words : List String) (hclean : ∀ w ∈ words, CleanWord w)
    (start chunkSize : Nat) :
    splitWords (joinWords ((words.drop start).take chunkSize)) =
      (words.drop start).take chunkSize :=
  splitWords_joinWords _
    (fun w hw => hclean w (List.mem_of_mem_drop (List.mem_of_mem_take hw)))

theorem slice_drop_overlap (words : List String) (start step ov : Nat) :
    (((words.drop start).take (step + ov)).drop ov) = (words.drop (start + ov)).take step := by
  rw [List.drop_take, List.drop_drop]
  simp [Nat.add_comm]

theorem take_append_drop_add (words : List String) (a step : Nat) :
    (words.drop a).take step ++ words.drop (a + step) = words.drop a := by
  rw [← List.drop_drop step a words]
  exact List.take_append_drop _ _

theorem chunkFrom_tail_words (words : List String) (hclean : ∀ w ∈ words, CleanWord w)
    (step ov : Nat) (hstep : 1 ≤ step) :
    ∀ (fuel start idx : Nat), words.length - start ≤ fuel →
      (chunkFrom words (step + ov) step fuel start idx).flatMap
          (fun d => (splitWords d.content).drop ov) = words.drop (start + ov) := by
  intro fuel
  induction fuel with
  | zero =>
    intro start idx hf
    have : words.length ≤ start + ov := by omega
    simp [chunkFrom, List.drop_eq_nil_of_le this]
  | succ fuel ih =>
    intro start idx hf
    unfold chunkFrom
    by_cases h1 : words.length ≤ start
    · have : words.length ≤ start + ov := by omega
      simp [h1, List.drop_eq_nil_of_le this]
    · by_cases h2 : words.length ≤ start + (step + ov)
      · simp only [h1, h2, if_false, if_true, List.flatMap_cons, List.flatMap_nil,
          List.append_nil, splitWords_slice words hclean, slice_drop_overlap]
        apply List.take_of_length_le
        simp only [List.length_drop]
        omega
      · simp only [h1, h2, if_false, List.flatMap_cons, splitWords_slice words hclean,
          slice_drop_overlap]
        rw [ih (start + step) (idx + 1) (by omega)]
        have e : start + step + ov = start + ov + step := by omega
        rw [e]
        exact take_append_drop_add words (start + ov) step

theorem reassemble_chunkFrom (words : List String) (hclean : ∀ w ∈ words, CleanWord w)
    (step ov : Nat) (hstep : 1 ≤ step) :
    reassemble ov (chunkFrom words (step + ov) step words.length 0 0) = words := by
  have hs0 : splitWords (joinWords ((words.drop 0).take (step + ov))) =
      words.take (step + ov) := by
    simpa using splitWords_slice words hclean 0 (step + ov)
  cases hm : words.length with
  | zero => simp [chunkFrom, reassemble, List.length_eq_zero.1 hm]
  | succ m =>
    unfold chunkFrom
    by_cases h2 : words.length ≤ 0 + (step + ov)
    · have h2b : m + 1 ≤ 0 + (step + ov) := by omega
      simp only [hm, Nat.le_zero_eq, Nat.succ_ne_zero, if_false, h2b, if_true, reassemble,
        List.flatMap_nil, List.append_nil, hs0]
      apply List.take_of_length_le
      omega
    · have h2b : ¬ m + 1 ≤ 0 + (step + ov) := by omega
      simp only [hm, Nat.le_zero_eq, Nat.succ_ne_zero, if_false, h2b, reassemble, hs0]
      rw [chunkFrom_tail_words words hclean step ov hstep m (0 + step) (0 + 1) (by omega)]
      have e : 0 + step + ov = step + ov := by omega
      rw [e]
      exact List.take_append_drop _ _

/-! ## The chunker on a valid configuration -/

theorem chunk_eq_chunkFrom (text : String) (chunkSize overlap : Nat)
    (hcs : 0 < chunkSize) (hov : overlap < chunkSize) :
    chunkText text chunkSize overlap =
      .ok (chunkFrom (splitWords text) chunkSize (chunkSize - overlap)
        (splitWords text).length 0 0) := by
  have h1 : ¬ ((chunkSize : Int) ≤ 0 ∨ (overlap : Int) < 0 ∨ (chunkSize : Int) ≤ overlap) := by
    omega
  have h2 : ((chunkSize : Int) - (overlap : Int)).toNat = chunkSize - overlap := by omega
  simp only [chunkText, h1, if_false, Int.toNat_ofNat, h2]

/-- C1: on a valid configuration `chunk` returns a chunk list whose `k`-th content is the
words `w[k*(chunkSize-overlap) .. min(m, k*(chunkSize-overlap)+chunkSize) - 1]` of the
text joined by single spaces; every chunk has at most `chunkSize` words, every chunk but
the last has exactly `chunkSize` words, and the last chunk reaches the last word. -/
theorem chunk_contents (text : String) (chunkSize overlap : Nat)
    (hcs : 0 < chunkSize) (hov : overlap < chunkSize) :
    ∃ cks, chunkText text chunkSize overlap = .ok cks ∧
      (cks = [] ↔ splitWords text = []) ∧
      ∀ k c, cks[k]? = some c →
        k * (chunkSize - overlap) < (splitWords text).length ∧
        c.content =
          joinWords (((splitWords text).drop (k * (chunkSize - overlap))).take chunkSize) ∧
        splitWords c.content =
          ((splitWords text).drop (k * (chunkSize - overlap))).take chunkSize ∧
        (splitWords c.content).length =
          min (splitWords text).length (k * (chunkSize - overlap) + chunkSize) -
            k * (chunkSize - overlap) ∧
        (∀ j, j < (splitWords c.content).length →
          (splitWords c.content)[j]? = (splitWords text)[k * (chunkSize - overlap) + j]?) ∧
        (splitWords c.content).length ≤ chunkSize ∧
        (k + 1 < cks.length → (splitWords c.content).length = chunkSize) ∧
        (k + 1 = cks.length →
          (splitWords text).length ≤ k * (chunkSize - overlap) + chunkSize) := by
  refine ⟨_, chunk_eq_chunkFrom text chunkSize overlap hcs hov, ?_, ?_⟩
  · rw [chunkFrom_eq_nil_iff _ _ _ _ _ _ (by omega)]
    simp [List.length_eq_zero]
  · intro k c hk
    obtain ⟨hc, hlt⟩ := chunkFrom_getElem? _ _ _ _ _ _ _ _ hk
    simp only [Nat.zero_add] at hc hlt
    have hcontent : c.content =
        joinWords (((splitWords text).drop (k * (chunkSize - overlap))).take chunkSize) := by
      rw [hc]
    have hwords : splitWords c.content =
        ((splitWords text).drop (k * (chunkSize - overlap))).take chunkSize := by
      rw [hcontent]
      exact splitWords_slice _ (splitWords_clean text) _ _
    have hlen : (splitWords c.content).length =
        min (splitWords text).length (k * (chunkSize - overlap) + chunkSize) -
          k * (chunkSize - overlap) := by
      rw [hwords, List.length_take, List.length_drop]
      omega
    refine ⟨hlt, hcontent, hwords, hlen, ?_, ?_, ?_, ?_⟩
    · intro j hj
      rw [hwords] at hj ⊢
      rw [List.getElem?_take_of_lt (by simpa using (List.length_take_le _ _ |>.trans_lt' hj)),
        List.getElem?_drop]
    · omega
    · intro hk1
      have := chunkFrom_not_last _ _ _ _ _ _ _ hk1
      omega
    · intro hk1
      have := chunkFrom_reaches_end (splitWords text) chunkSize (chunkSize - overlap)
        (by omega) (by omega) (splitWords text).length 0 0 k (by omega) hk1.symm
      omega

theorem chunk_contents_witness :
    ((0 < 5 ∧ 1 < 5) ∧
      ∃ cks, chunkText exampleText ((5 : Nat) : Int) ((1 : Nat) : Int) = .ok cks ∧
        ∀ k c, cks[k]? = some c →
          splitWords c.content = ((splitWords exampleText).drop (k * (5 - 1))).take 5) ∧
    chunkText exampleText 5 1 =
      .ok [⟨"The cat sat on the", 0, 0⟩, ⟨"the mat. The dog ran", 0, 1⟩,
        ⟨"ran in the park.", 0, 2⟩] := by
  refine ⟨⟨by decide, ?_⟩, by decide⟩
  obtain ⟨cks, h, _, hk⟩ := chunk_contents exampleText 5 1 (by decide) (by decide)
  exact ⟨cks, h, fun k c hc => (hk k c hc).2.2.1⟩

/-- C2: on a valid configuration, the words of chunk 0 followed by the words of every
later chunk after its first `overlap` words, taken in `chunkIndex` order, are exactly the
word sequence of the text. -/
theorem chunk_reassemble (text : String) (chunkSize overlap : Nat)
    (hcs : 0 < chunkSize) (hov : overlap < chunkSize) :
    ∃ cks, chunkText text chunkSize overlap = .ok cks ∧
      (cks.map Chunk.chunkIndex).Sorted (fun a b => a < b) ∧
      reassemble overlap cks = splitWords text := by
  refine ⟨_, chunk_eq_chunkFrom text chunkSize overlap hcs hov, ?_, ?_⟩
  · rw [chunkFrom_indices]
    exact List.pairwise_lt_range' _ _
  · have h := reassemble_chunkFrom (splitWords text) (splitWords_clean text)
      (chunkSize - overlap) overlap (by omega)
    rwa [Nat.sub_add_cancel (Nat.le_of_lt hov)] at h

theorem chunk_reassemble_witness :
    (0 < 5 ∧ 1 < 5) ∧
      ∃ cks, chunkText exampleText ((5 : Nat) : Int) ((1 : Nat) : Int) = .ok cks ∧
        reassemble 1 cks = splitWords exampleText := by
  refine ⟨by decide, ?_⟩
  obtain ⟨cks, h, _, hr⟩ := chunk_reassemble exampleText 5 1 (by decide) (by decide)
  exact ⟨cks, h, hr⟩

/-- C3: on a valid configuration the `n` chunks of one `chunk` call carry the
`chunkIndex` values `0, 1, ..., n-1` in output order. -/
theorem chunk_indices_contiguous (text : String) (chunkSize overlap : Nat)
    (hcs : 0 < chunkSize) (hov : overlap < chunkSize) :
    ∃ cks, chunkText text chunkSize overlap = .ok cks ∧
      cks.map Chunk.chunkIndex = List.range cks.length := by
  refine ⟨_, chunk_eq_chunkFrom text chunkSize overlap hcs hov, ?_⟩
  rw [chunkFrom_indices, List.range_eq_range']

theorem chunk_indices_contiguous_witness :
    (0 < 5 ∧ 1 < 5) ∧
      ∃ cks, chunkText exampleText ((5 : Nat) : Int) ((1 : Nat) : Int) = .ok cks ∧
        cks.map Chunk.chunkIndex = List.range cks.length :=
  ⟨by decide, chunk_indices_contiguous exampleText 5 1 (by decide) (by decide)⟩

theorem joinWords_ne_empty (ws : List String) (h : ∀ w ∈ ws, CleanWord w) (hne : ws ≠ []) :
    joinWords ws ≠ "" := by
  intro he
  have h1 := splitWords_joinWords ws h
  rw [he] at h1
  have h2 : splitWords "" = [] := by decide
  exact hne (h1.symm.trans h2)

/-- C9: on a valid configuration `chunk` returns zero chunks when the text is empty or
has no words; every returned chunk has non-empty content; and a text with at least one
word and fewer words than `chunkSize` yields exactly one chunk, with `chunkIndex` 0,
holding all its words. -/
theorem chunk_degenerate (text : String) (chunkSize overlap : Nat)
    (hcs : 0 < chunkSize) (hov : overlap < chunkSize) :
    ∃ cks, chunkText text chunkSize overlap = .ok cks ∧
      (text = "" → cks = []) ∧
      (splitWords text = [] → cks = []) ∧
      (∀ c ∈ cks, c.content ≠ "") ∧
      (splitWords text ≠ [] → (splitWords text).length < chunkSize →
        cks = [⟨joinWords (splitWords text), 0, 0⟩] ∧
          splitWords (joinWords (splitWords text)) = splitWords text) := by
  have hnil : splitWords text = [] →
      chunkFrom (splitWords text) chunkSize (chunkSize - overlap)
        (splitWords text).length 0 0 = [] := by
    intro h
    rw [chunkFrom_eq_nil_iff _ _ _ _ _ _ (by omega)]
    simp [h]
  refine ⟨_, chunk_eq_chunkFrom text chunkSize overlap hcs hov, ?_, hnil, ?_, ?_⟩
  · intro h
    apply hnil
    rw [h]
    decide
  · intro c hc
    obtain ⟨k, hk⟩ := List.getElem?_of_mem hc
    obtain ⟨hval, hlt⟩ := chunkFrom_getElem? _ _ _ _ _ _ _ _ hk
    rw [hval]
    apply joinWords_ne_empty
    · intro w hw
      exact splitWords_clean text w (List.mem_of_mem_drop (List.mem_of_mem_take hw))
    · intro h
      have hl := congrArg List.length h
      simp only [List.length_take, List.length_drop, List.length_nil] at hl
      omega
  · intro hne hlt
    refine ⟨?_, splitWords_joinWords _ (splitWords_clean text)⟩
    have hpos : 0 < (splitWords text).length := List.length_pos.2 hne
    cases hm : (splitWords text).length with
    | zero => omega
    | succ m =>
      unfold chunkFrom
      have h1 : ¬ (splitWords text).length ≤ 0 := by omega
      have h2 : (splitWords text).length ≤ 0 + chunkSize := by omega
      simp only [h1, h2, if_false, if_true, List.drop_zero]
      rw [List.take_of_length_le (by omega)]

theorem chunk_degenerate_witness :
    ((0 < 500 ∧ 50 < 500) ∧
      ∃ cks, chunkText "one two three" ((500 : Nat) : Int) ((50 : Nat) : Int) = .ok cks ∧
        (splitWords "one two three" ≠ [] → (splitWords "one two three").length < 500 →
          cks = [⟨joinWords (splitWords "one two three"), 0, 0⟩])) ∧
    chunkText "one two three" 500 50 = .ok [⟨"one two three", 0, 0⟩] ∧
    chunkText "" 500 50 = .ok [] ∧
    chunkText "  \n " 500 50 = .ok [] := by
  refine ⟨⟨by decide, ?_⟩, by decide, by decide, by decide⟩
  obtain ⟨cks, h, _, _, _, h1⟩ := chunk_degenerate "one two three" 500 50 (by decide) (by decide)
  exact ⟨cks, h, fun a b => (h1 a b).1⟩

/-! ## The retriever -/

/-- The scored chunk list built by `findRelevantChunks`. -/
theorem findRelevantChunks_eq (chunks : List Chunk) (query : String) (topK : Nat)
    (hk : 0 < topK) :
    findRelevantChunks chunks query topK =
      .ok (if ((chunks.map (fun c => (⟨c, scoreChunk query c⟩ : RelevantChunk))).filter
              (fun r => decide (0 < r.score))).isEmpty
        then (chunks.map (fun c => (⟨c, scoreChunk query c⟩ : RelevantChunk))).take topK
        else ((((chunks.map (fun c => (⟨c, scoreChunk query c⟩ : RelevantChunk))).filter
              (fun r => decide (0 < r.score))).insertionSort rankBefore).take topK)) := by
  have h1 : ¬ ((topK : Int) ≤ 0) := by omega
  simp only [findRelevantChunks, h1, if_false, Int.toNat_ofNat]
  split <;> rfl

theorem scoreChunk_eq_card (query : String) (c : Chunk) :
    scoreChunk query c =
      ((tokenize query).toFinset ∩ (tokenize c.content).toFinset).card := by
  unfold scoreChunk queryTerms
  have hnd : ((tokenize query).dedup.filter
      (fun t => (tokenize c.content).contains t)).Nodup :=
    (List.nodup_dedup _).filter _
  rw [← List.toFinset_card_of_nodup hnd]
  congr 1
  ext t
  simp [List.mem_filter]

theorem mem_findRelevantChunks (chunks : List Chunk) (query : String) (topK : Nat)
    (hk : 0 < topK) (rs : List RelevantChunk)
    (h : findRelevantChunks chunks query topK = .ok rs) :
    ∀ r ∈ rs, r.chunk ∈ chunks ∧ r.score = scoreChunk query r.chunk := by
  rw [findRelevantChunks_eq chunks query topK hk] at h
  injection h with h
  intro r hr
  have hmem : r ∈ chunks.map (fun c => (⟨c, scoreChunk query c⟩ : RelevantChunk)) := by
    rw [← h] at hr
    split at hr
    · exact List.mem_of_mem_take hr
    · have h1 := List.mem_of_mem_take hr
      rw [List.mem_insertionSort] at h1
      exact (List.mem_filter.1 h1).1
  obtain ⟨c, hc, rfl⟩ := List.mem_map.1 hmem
  exact ⟨hc, rfl⟩

/-- C4: the score `findRelevantChunks` assigns to a chunk is the number of distinct
lower-cased alphanumeric tokens of the query that occur among the lower-cased
alphanumeric tokens of the chunk's content; it depends on the two token sets only, so
repeated occurrences of a term do not raise it. -/
theorem score_is_term_overlap (chunks : List Chunk) (query : String) (topK : Nat)
    (hk : 0 < topK) :
    ∃ rs, findRelevantChunks chunks query topK = .ok rs ∧
      (∀ r ∈ rs, r.chunk ∈ chunks ∧
        r.score = ((tokenize query).toFinset ∩ (tokenize r.chunk.content).toFinset).card) ∧
      (∀ c ∈ chunks, scoreChunk query c =
        ((tokenize query).toFinset ∩ (tokenize c.content).toFinset).card) ∧
      (∀ (query2 : String) (c c2 : Chunk),
        (tokenize query).toFinset = (tokenize query2).toFinset →
        (tokenize c.content).toFinset = (tokenize c2.content).toFinset →
        scoreChunk query c = scoreChunk query2 c2) := by
  refine ⟨_, findRelevantChunks_eq chunks query topK hk, ?_, ?_, ?_⟩
  · intro r hr
    obtain ⟨h1, h2⟩ := mem_findRelevantChunks chunks query topK hk _
      (findRelevantChunks_eq chunks query topK hk) r hr
    exact ⟨h1, h2.trans (scoreChunk_eq_card query r.chunk)⟩
  · intro c _
    exact scoreChunk_eq_card query c
  · intro query2 c c2 hq hc
    rw [scoreChunk_eq_card, scoreChunk_eq_card, hq, hc]

theorem score_is_term_overlap_witness :
    0 < 2 ∧
      ∃ rs, findRelevantChunks
          [⟨"The cat sat", 0, 0⟩, ⟨"a dog and a cat, Cat!", 0, 1⟩, ⟨"dog cat cat", 0, 2⟩]
          "cat dog cat?" ((2 : Nat) : Int) = .ok rs ∧
        ∀ r ∈ rs, r.score =
          ((tokenize "cat dog cat?").toFinset ∩ (tokenize r.chunk.content).toFinset).card := by
  refine ⟨by decide, ?_⟩
  obtain ⟨rs, h, hr, _⟩ := score_is_term_overlap
    [⟨"The cat sat", 0, 0⟩, ⟨"a dog and a cat, Cat!", 0, 1⟩, ⟨"dog cat cat", 0, 2⟩]
    "cat dog cat?" 2 (by decide)
  exact ⟨rs, h, fun r hm => (hr r hm).2⟩

theorem positive_nonempty (chunks : List Chunk) (query : String)
    (hpos : ∃ c ∈ chunks, 0 < scoreChunk query c) :
    ((chunks.map (fun c => (⟨c, scoreChunk query c⟩ : RelevantChunk))).filter
      (fun r => decide (0 < r.score))).isEmpty = false := by
  obtain ⟨c, hc, hs⟩ := hpos
  have hm : (⟨c, scoreChunk query c⟩ : RelevantChunk) ∈
      (chunks.map (fun c => (⟨c, scoreChunk query c⟩ : RelevantChunk))).filter
        (fun r => decide (0 < r.score)) := by
    rw [List.mem_filter]
    exact ⟨List.mem_map.2 ⟨c, hc, rfl⟩, by simpa using hs⟩
  cases hl : (chunks.map (fun c => (⟨c, scoreChunk query c⟩ : RelevantChunk))).filter
      (fun r => decide (0 < r.score)) with
  | nil => rw [hl] at hm; simp at hm
  | cons a l => rfl

/-- C5: when `topK > 0` and some chunk scores above 0, the sequence returned by
`findRelevantChunks` is in descending score order, and returned chunks of equal score
appear in ascending `chunkIndex` order. -/
theorem ranking_order (chunks : List Chunk) (query : String) (topK : Nat)
    (hk : 0 < topK) (hpos : ∃ c ∈ chunks, 0 < scoreChunk query c) :
    ∃ rs, findRelevantChunks chunks query topK = .ok rs ∧
      rs.Pairwise (fun a b => b.score ≤ a.score ∧
        (a.score = b.score → a.chunk.chunkIndex ≤ b.chunk.chunkIndex)) := by
  refine ⟨_, findRelevantChunks_eq chunks query topK hk, ?_⟩
  rw [positive_nonempty chunks query hpos]
  simp only [Bool.false_eq_true, if_false]
  have hs := List.sorted_insertionSort rankBefore
    ((chunks.map (fun c => (⟨c, scoreChunk query c⟩ : RelevantChunk))).filter
      (fun r => decide (0 < r.score)))
  have hp := List.Pairwise.sublist (List.take_sublist topK _) hs
  refine hp.imp ?_
  intro a b hab
  unfold rankBefore at hab
  omega

theorem ranking_order_witness :
    ((0 < 2 ∧ ∃ c ∈ ([⟨"The cat sat", 0, 0⟩, ⟨"dog cat cat", 0, 1⟩,
          ⟨"a dog and a cat, Cat!", 0, 2⟩, ⟨"nothing", 0, 3⟩] : List Chunk),
          0 < scoreChunk "cat dog cat?" c) ∧
      ∃ rs, findRelevantChunks [⟨"The cat sat", 0, 0⟩, ⟨"dog cat cat", 0, 1⟩,
            ⟨"a dog and a cat, Cat!", 0, 2⟩, ⟨"nothing", 0, 3⟩]
          "cat dog cat?" ((2 : Nat) : Int) = .ok rs ∧
        rs.Pairwise (fun a b => b.score ≤ a.score ∧
          (a.score = b.score → a.chunk.chunkIndex ≤ b.chunk.chunkIndex))) ∧
    findRelevantChunks [⟨"The cat sat", 0, 0⟩, ⟨"dog cat cat", 0, 1⟩,
        ⟨"a dog and a cat, Cat!", 0, 2⟩, ⟨"nothing", 0, 3⟩] "cat dog cat?" 2 =
      .ok [⟨⟨"dog cat cat", 0, 1⟩, 2⟩, ⟨⟨"a dog and a cat, Cat!", 0, 2⟩, 2⟩] := by
  have hpos : ∃ c ∈ ([⟨"The cat sat", 0, 0⟩, ⟨"dog cat cat", 0, 1⟩,
      ⟨"a dog and a cat, Cat!", 0, 2⟩, ⟨"nothing", 0, 3⟩] : List Chunk),
      0 < scoreChunk "cat dog cat?" c :=
    ⟨⟨"The cat sat", 0, 0⟩, by simp, by decide⟩
  exact ⟨⟨⟨by decide, hpos⟩, ranking_order _ "cat dog cat?" 2 (by decide) hpos⟩, by decide⟩

theorem scoreChunk_of_no_tokens (query : String) (c : Chunk) (h : tokenize query = []) :
    scoreChunk query c = 0 := by
  simp [scoreChunk, queryTerms, h]

/-- C6: when `topK > 0` and every chunk scores 0 (as for a query without any token),
`findRelevantChunks` returns the first `min(topK, number of chunks)` chunks in their
original order. -/
theorem fallback_first_chunks (chunks : List Chunk) (query : String) (topK : Nat)
    (hk : 0 < topK) :
    (tokenize query = [] → ∀ c ∈ chunks, scoreChunk query c = 0) ∧
    ((∀ c ∈ chunks, scoreChunk query c = 0) →
      ∃ rs, findRelevantChunks chunks query topK = .ok rs ∧
        rs.map RelevantChunk.chunk = chunks.take (min topK chunks.length) ∧
        rs.length = min topK chunks.length ∧
        ∀ r ∈ rs, r.score = 0) := by
  refine ⟨fun h c _ => scoreChunk_of_no_tokens query c h, ?_⟩
  intro hz
  have hempty : ((chunks.map (fun c => (⟨c, scoreChunk query c⟩ : RelevantChunk))).filter
      (fun r => decide (0 < r.score))).isEmpty = true := by
    rw [List.isEmpty_iff, List.filter_eq_nil_iff]
    intro r hr
    obtain ⟨c, hc, rfl⟩ := List.mem_map.1 hr
    simp [hz c hc]
  refine ⟨_, findRelevantChunks_eq chunks query topK hk, ?_, ?_, ?_⟩
  · rw [hempty]
    simp only [if_true, ← List.map_take, List.map_map]
    have : (RelevantChunk.chunk ∘ fun c => (⟨c, scoreChunk query c⟩ : RelevantChunk)) = id := by
      funext c; rfl
    rw [this, List.map_id, List.take_eq_take]
    simp
  · rw [hempty]
    simp
  · rw [hempty]
    intro r hr
    simp only [if_true] at hr
    obtain ⟨c, hc, rfl⟩ := List.mem_map.1 (List.mem_of_mem_take hr)
    exact hz c hc

theorem fallback_first_chunks_witness :
    (0 < 2 ∧ (∀ c ∈ ([⟨"alpha", 0, 0⟩, ⟨"beta", 0, 1⟩, ⟨"gamma", 0, 2⟩] : List Chunk),
        scoreChunk "delta" c = 0)) ∧
      ∃ rs, findRelevantChunks [⟨"alpha", 0, 0⟩, ⟨"beta", 0, 1⟩, ⟨"gamma", 0, 2⟩] "delta"
          ((2 : Nat) : Int) = .ok rs ∧
        rs.map RelevantChunk.chunk = [⟨"alpha", 0, 0⟩, ⟨"beta", 0, 1⟩] := by
  have hz : ∀ c ∈ ([⟨"alpha", 0, 0⟩, ⟨"beta", 0, 1⟩, ⟨"gamma", 0, 2⟩] : List Chunk),
      scoreChunk "delta" c = 0 := by decide
  obtain ⟨rs, h, hm, _⟩ := (fallback_first_chunks
    [⟨"alpha", 0, 0⟩, ⟨"beta", 0, 1⟩, ⟨"gamma", 0, 2⟩] "delta" 2 (by decide)).2 hz
  exact ⟨⟨by decide, hz⟩, rs, h, hm⟩

/-- C7: for `topK > 0`, `findRelevantChunks` never returns more than
`min(topK, number of chunks)` results, and when some chunk scores above 0 it returns
exactly `min(topK, number of chunks with score > 0)` chunks, each with a positive
score. -/
theorem result_length (chunks : List Chunk) (query : String) (topK : Nat) (hk : 0 < topK) :
    ∃ rs, findRelevantChunks chunks query topK = .ok rs ∧
      rs.length ≤ min topK chunks.length ∧
      ((∃ c ∈ chunks, 0 < scoreChunk query c) →
        rs.length = min topK (chunks.countP (fun c => decide (0 < scoreChunk query c))) ∧
          ∀ r ∈ rs, 0 < r.score) := by
  have hcount : ((chunks.map (fun c => (⟨c, scoreChunk query c⟩ : RelevantChunk))).filter
      (fun r => decide (0 < r.score))).length =
      chunks.countP (fun c => decide (0 < scoreChunk query c)) := by
    rw [← List.countP_eq_length_filter, List.countP_map]
    rfl
  refine ⟨_, findRelevantChunks_eq chunks query topK hk, ?_, ?_⟩
  · split
    · simp
    · rw [List.length_take, List.length_insertionSort, hcount]
      have := List.countP_le_length (fun c => decide (0 < scoreChunk query c)) (l := chunks)
      omega
  · intro hpos
    rw [positive_nonempty chunks query hpos]
    simp only [Bool.false_eq_true, if_false]
    refine ⟨by rw [List.length_take, List.length_insertionSort, hcount], ?_⟩
    intro r hr
    have h1 := List.mem_of_mem_take hr
    rw [List.mem_insertionSort] at h1
    simpa using (List.mem_filter.1 h1).2

theorem result_length_witness :
    0 < 3 ∧
      ∃ rs, findRelevantChunks [⟨"The cat sat", 0, 0⟩, ⟨"dog cat cat", 0, 1⟩,
            ⟨"a dog and a cat, Cat!", 0, 2⟩, ⟨"nothing", 0, 3⟩]
          "dog" ((3 : Nat) : Int) = .ok rs ∧ rs.length ≤ min 3 4 :=
  ⟨by decide, by
    obtain ⟨rs, h, hl, _⟩ := result_length [⟨"The cat sat", 0, 0⟩, ⟨"dog cat cat", 0, 1⟩,
      ⟨"a dog and a cat, Cat!", 0, 2⟩, ⟨"nothing", 0, 3⟩] "dog" 3 (by decide)
    exact ⟨rs, h, hl⟩⟩

/-! ## Invalid configurations -/

/-- C8: an invalid configuration is signalled as an error; `chunk` fails with the
configuration error whenever `chunkSize <= 0` or `overlap >= chunkSize`, and
`findRelevantChunks` fails with it whenever `topK <= 0`, so no chunk list is returned. -/
theorem invalid_configuration_fails (text : String) (chunkSize overlap : Int)
    (chunks : List Chunk) (query : String) (topK : Int) :
    ((chunkSize ≤ 0 ∨ chunkSize ≤ overlap) →
      chunkText text chunkSize overlap = .error .invalidConfiguration) ∧
    (topK ≤ 0 → findRelevantChunks chunks query topK = .error .invalidConfiguration) := by
  constructor
  · intro h
    have h1 : chunkSize ≤ 0 ∨ overlap < 0 ∨ chunkSize ≤ overlap := by omega
    simp only [chunkText, h1, if_true]
  · intro h
    simp only [findRelevantChunks, h, if_true]

theorem invalid_configuration_fails_witness :
    (((100 : Int) ≤ 0 ∨ (100 : Int) ≤ 100) ∧
      chunkText exampleText 100 100 = .error .invalidConfiguration) ∧
    (((100 : Int) ≤ 0 ∨ (100 : Int) ≤ 150) ∧
      chunkText exampleText 100 150 = .error .invalidConfiguration) ∧
    ((0 : Int) ≤ 0 ∧
      findRelevantChunks [⟨"alpha", 0, 0⟩] "alpha" 0 = .error .invalidConfiguration) :=
  ⟨⟨by decide, (invalid_configuration_fails exampleText 100 100 [] "" 0).1 (by decide)⟩,
    ⟨by decide, (invalid_configuration_fails exampleText 100 150 [] "" 0).1 (by decide)⟩,
    ⟨by decide, (invalid_configuration_fails "" 1 0 [⟨"alpha", 0, 0⟩] "alpha" 0).2
      (by decide)⟩⟩

/-! ## `Document.addChunk` -/

theorem addChunks_snoc (doc : Document) (adds : List (String × Option Nat))
    (a : String × Option Nat) :
    doc.addChunks (adds ++ [a]) = (doc.addChunks adds).addChunk a.1 a.2 := by
  simp [Document.addChunks, List.foldl_append]

/-- C10: `addChunk` preserves index contiguity. If the chunks of a document carry the
`chunkIndex` values `0..n-1` in array order, then after `addChunk(content, pageNumber)`
they carry `0..n`, the new chunk is last with `chunkIndex` `n` and the given content, and
the `n` existing chunks are unchanged; hence every chunk list built from the empty list
by `addChunk` calls has the indices `0, 1, ...` without gap or repeat. -/
theorem addChunk_contiguous (doc : Document) (content : String) (pageNumber : Option Nat)
    (adds : List (String × Option Nat)) :
    (doc.chunks.map Chunk.chunkIndex = List.range doc.chunks.length →
      ((doc.addChunk content pageNumber).chunks.map Chunk.chunkIndex =
          List.range (doc.chunks.length + 1) ∧
        (doc.addChunk content pageNumber).chunks.getLast? =
          some ⟨content, pageNumber.getD 0, doc.chunks.length⟩ ∧
        (doc.addChunk content pageNumber).chunks.take doc.chunks.length = doc.chunks ∧
        (doc.addChunk content pageNumber).chunks.length = doc.chunks.length + 1)) ∧
    (doc.chunks = [] →
      ((doc.addChunks adds).chunks.map Chunk.chunkIndex = List.range adds.length ∧
        ((doc.addChunks adds).chunks.map Chunk.chunkIndex).Nodup ∧
        (doc.addChunks adds).chunks.map Chunk.content = adds.map Prod.fst)) := by
  constructor
  · intro h
    refine ⟨?_, ?_, ?_, ?_⟩
    · simp [Document.addChunk, h, List.range_succ]
    · simp [Document.addChunk]
    · simp [Document.addChunk]
    · simp [Document.addChunk]
  · intro hempty
    have key : (doc.addChunks adds).chunks.map Chunk.chunkIndex = List.range adds.length ∧
        (doc.addChunks adds).chunks.map Chunk.content = adds.map Prod.fst := by
      induction adds using List.reverseRecOn with
      | nil => simp [Document.addChunks, hempty]
      | append_singleton adds a ih =>
        have hlen : (doc.addChunks adds).chunks.length = adds.length := by
          have := congrArg List.length ih.1
          simpa using this
        rw [addChunks_snoc]
        constructor
        · simp [Document.addChunk, ih.1, hlen, List.range_succ]
        · simp [Document.addChunk, ih.2]
    exact ⟨key.1, by rw [key.1]; exact List.nodup_range _, key.2⟩

theorem addChunk_contiguous_witness :
    (([⟨"first", 0, 0⟩, ⟨"second", 3, 1⟩] : List Chunk).map Chunk.chunkIndex = List.range 2 ∧
      ((Document.mk "t" "p" "u" 1 "" [⟨"first", 0, 0⟩, ⟨"second", 3, 1⟩]
          DocStatus.completed).addChunk "third" none).chunks.map Chunk.chunkIndex =
        List.range 3 ∧
      ((Document.mk "t" "p" "u" 1 "" [⟨"first", 0, 0⟩, ⟨"second", 3, 1⟩]
          DocStatus.completed).addChunk "third" none).chunks.getLast? =
        some ⟨"third", 0, 2⟩) ∧
    ((Document.fresh "t" "p" "u" 1).chunks = [] ∧
      ((Document.fresh "t" "p" "u" 1).addChunks
          [("a", none), ("b", some 4), ("c", none)]).chunks.map Chunk.chunkIndex =
        List.range 3) := by
  have h1 := (addChunk_contiguous
    (Document.mk "t" "p" "u" 1 "" [⟨"first", 0, 0⟩, ⟨"second", 3, 1⟩] DocStatus.completed)
    "third" none []).1 (by decide)
  have h2 := (addChunk_contiguous (Document.fresh "t" "p" "u" 1) "" none
    [("a", none), ("b", some 4), ("c", none)]).2 rfl
  exact ⟨⟨by decide, h1.1, h1.2.1⟩, rfl, h2.1⟩

/-! ## Call sites -/

theorem chunkText_error_iff (text : String) (chunkSize overlap : Int) :
    chunkText text chunkSize overlap = .error ConfigError.invalidConfiguration ↔
      (chunkSize ≤ 0 ∨ overlap < 0 ∨ chunkSize ≤ overlap) := by
  unfold chunkText
  by_cases h : chunkSize ≤ 0 ∨ overlap < 0 ∨ chunkSize ≤ overlap
  · simp only [h, if_true]
  · simp only [h, if_false, iff_false]
    intro hc
    cases hc

theorem findRelevantChunks_error_iff (chunks : List Chunk) (query : String) (topK : Int) :
    findRelevantChunks chunks query topK = .error ConfigError.invalidConfiguration ↔
      topK ≤ 0 := by
  unfold findRelevantChunks
  by_cases h : topK ≤ 0
  · simp only [h, if_true]
  · simp only [h, if_false, iff_false]
    intro hc
    split at hc <;> cases hc

/-- C11: the call sites pass a valid configuration. `processPDF` calls `chunkText` with
`chunkSize = 500` and `overlap = 50`, and `chat` and `explainConcept` call
`findRelevantChunks` on the chunks of the document with `topK = 3`. The configuration
error is returned exactly on `chunkSize <= 0`, `overlap < 0`, `overlap >= chunkSize` and
`topK <= 0`, so it is not reached from these calls, whatever the document text, the chunk
list, the question or the concept: the processed document gets the chunks of the scan
with 500 and 450 and the status `completed`, and the two retrievals return the first 3
chunks of the ranking, or of the document when every chunk scores 0. -/
theorem call_sites_valid (doc : Document) (text question concept : String) :
    ((0 : Int) < 500 ∧ (0 : Int) ≤ 50 ∧ (50 : Int) < 500 ∧ (0 : Int) < 3) ∧
    (∀ (t : String) (chunkSize overlap : Int),
      chunkText t chunkSize overlap = .error ConfigError.invalidConfiguration ↔
        (chunkSize ≤ 0 ∨ overlap < 0 ∨ chunkSize ≤ overlap)) ∧
    (∀ (chunks : List Chunk) (query : String) (topK : Int),
      findRelevantChunks chunks query topK = .error ConfigError.invalidConfiguration ↔
        topK ≤ 0) ∧
    (processPDF doc (.ok text) =
        { doc with
          extractedText := text,
          chunks := chunkFrom (splitWords text) 500 450 (splitWords text).length 0 0,
          status := DocStatus.completed } ∧
      chunkText text 500 50 =
        .ok (chunkFrom (splitWords text) 500 450 (splitWords text).length 0 0)) ∧
    (chatRelevantChunks doc question = findRelevantChunks doc.chunks question 3 ∧
      chatRelevantChunks doc question ≠ .error ConfigError.invalidConfiguration ∧
      chatRelevantChunks doc question =
        .ok (if ((doc.chunks.map
                (fun c => (⟨c, scoreChunk question c⟩ : RelevantChunk))).filter
                (fun r => decide (0 < r.score))).isEmpty
          then (doc.chunks.map
            (fun c => (⟨c, scoreChunk question c⟩ : RelevantChunk))).take 3
          else ((((doc.chunks.map
            (fun c => (⟨c, scoreChunk question c⟩ : RelevantChunk))).filter
              (fun r => decide (0 < r.score))).insertionSort rankBefore).take 3))) ∧
    (explainConceptRelevantChunks doc concept = findRelevantChunks doc.chunks concept 3 ∧
      explainConceptRelevantChunks doc concept ≠ .error ConfigError.invalidConfiguration ∧
      explainConceptRelevantChunks doc concept =
        .ok (if ((doc.chunks.map
                (fun c => (⟨c, scoreChunk concept c⟩ : RelevantChunk))).filter
                (fun r => decide (0 < r.score))).isEmpty
          then (doc.chunks.map
            (fun c => (⟨c, scoreChunk concept c⟩ : RelevantChunk))).take 3
          else ((((doc.chunks.map
            (fun c => (⟨c, scoreChunk concept c⟩ : RelevantChunk))).filter
              (fun r => decide (0 < r.score))).insertionSort rankBefore).take 3))) := by
  have hchunk : chunkText text 500 50 =
      .ok (chunkFrom (splitWords text) 500 450 (splitWords text).length 0 0) :=
    chunk_eq_chunkFrom text 500 50 (by decide) (by decide)
  have hfind : ∀ q : String, findRelevantChunks doc.chunks q 3 ≠
      .error ConfigError.invalidConfiguration := by
    intro q hq
    exact absurd ((findRelevantChunks_error_iff doc.chunks q 3).1 hq) (by decide)
  refine ⟨by decide, chunkText_error_iff, findRelevantChunks_error_iff, ⟨?_, hchunk⟩,
    ⟨rfl, hfind question, ?_⟩, ⟨rfl, hfind concept, ?_⟩⟩
  · simp only [processPDF]
    rw [hchunk]
  · exact findRelevantChunks_eq doc.chunks question 3 (by decide)
  · exact findRelevantChunks_eq doc.chunks concept 3 (by decide)

theorem call_sites_valid_witness :
    chatRelevantChunks exampleDocument "cat" =
      findRelevantChunks exampleDocument.chunks "cat" 3 ∧
    chatRelevantChunks exampleDocument "cat" =
      .ok [⟨⟨"The cat sat", 0, 0⟩, 1⟩, ⟨⟨"a dog and a cat", 0, 1⟩, 1⟩,
        ⟨⟨"dog cat cat", 0, 2⟩, 1⟩] ∧
    explainConceptRelevantChunks exampleDocument "zebra" =
      .ok [⟨⟨"The cat sat", 0, 0⟩, 0⟩, ⟨⟨"a dog and a cat", 0, 1⟩, 0⟩,
        ⟨⟨"dog cat cat", 0, 2⟩, 0⟩] ∧
    processPDF (Document.fresh "t" "p" "u" 1) (.ok exampleText) =
      ⟨"t", "p", "u", 1, exampleText,
        [⟨"The cat sat on the mat. The dog ran in the park.", 0, 0⟩],
        DocStatus.completed⟩ :=
  ⟨(call_sites_valid exampleDocument exampleText "cat" "zebra").2.2.2.2.1.1,
    by decide, by decide, by decide⟩

/-! ## `generateWithRetry` -/

theorem retriedIterations_succ (jitter : Nat → Nat) (i k : Nat) :
    retriedIterations jitter i (k + 1) =
      retriedIterations jitter i k ++
        [RetryEvent.call (i + k), RetryEvent.wait (2 ^ (i + k) * 2000 + jitter (i + k))] := by
  simp [retriedIterations, List.range_succ, List.flatMap_append]

theorem retryLoop_retried (model : Nat → ModelOutcome) (jitter : Nat → Nat) (i : Nat) :
    ∀ (k remaining : Nat) (last : Option ApiError) (trace : List RetryEvent),
      (∀ j, j < k → FailsRetryable model (i + j)) →
      ∃ last2, (k = 0 → last2 = last) ∧
        (∀ e, 0 < k → model (i + (k - 1)) = ModelOutcome.failure e → last2 = some e) ∧
        retryLoop model jitter (remaining + k) i last trace =
          retryLoop model jitter remaining (i + k) last2
            (trace ++ retriedIterations jitter i k) := by
  intro k
  induction k with
  | zero =>
    intro remaining last trace _
    exact ⟨last, fun _ => rfl, fun e h => absurd h (by omega),
      by simp [retriedIterations]⟩
  | succ k ih =>
    intro remaining last trace h
    obtain ⟨last2, _, _, heq⟩ := ih (remaining + 1) last trace
      (fun j hj => h j (by omega))
    obtain ⟨e, he, hr⟩ := h k (by omega)
    refine ⟨some e, fun h0 => absurd h0 (by omega), ?_, ?_⟩
    · intro e2 _ he2
      simp only [Nat.add_sub_cancel] at he2
      rw [he] at he2
      injection he2 with he2
      rw [he2]
    · rw [show remaining + (k + 1) = remaining + 1 + k by omega, heq]
      rw [retryLoop]
      simp only [he, attemptResult, hr, if_true]
      rw [retriedIterations_succ, List.append_assoc]
      rfl

theorem callCount_append (a b : List RetryEvent) :
    callCount (a ++ b) = callCount a + callCount b := by
  simp [callCount, List.countP_append]

theorem waitCount_append (a b : List RetryEvent) :
    waitCount (a ++ b) = waitCount a + waitCount b := by
  simp [waitCount, List.countP_append]

theorem callCount_retriedIterations (jitter : Nat → Nat) (i k : Nat) :
    callCount (retriedIterations jitter i k) = k := by
  induction k with
  | zero => simp [retriedIterations, callCount]
  | succ k ih =>
    rw [retriedIterations_succ, callCount_append, ih]
    simp [callCount]

theorem waitCount_retriedIterations (jitter : Nat → Nat) (i k : Nat) :
    waitCount (retriedIterations jitter i k) = k := by
  induction k with
  | zero => simp [retriedIterations, waitCount]
  | succ k ih =>
    rw [retriedIterations_succ, waitCount_append, ih]
    simp [waitCount]

theorem callCount_retryLoop_le (model : Nat → ModelOutcome) (jitter : Nat → Nat) :
    ∀ (remaining i : Nat) (last : Option ApiError) (trace : List RetryEvent),
      callCount (retryLoop model jitter remaining i last trace).trace ≤
        callCount trace + remaining := by
  intro remaining
  induction remaining with
  | zero => intro i last trace; simp [retryLoop]
  | succ remaining ih =>
    intro i last trace
    rw [retryLoop]
    cases hres : attemptResult (model i) with
    | ok t =>
      simp only [callCount_append]
      simp [callCount]
    | error e =>
      simp only
      by_cases hr : isRetryable e = true
      · simp only [hr, if_true]
        refine (ih _ _ _).trans ?_
        rw [callCount_append]
        simp [callCount]
        omega
      · simp only [hr, if_false, callCount_append]
        simp [callCount]

theorem generateWithRetry_retried (model : Nat → ModelOutcome) (jitter : Nat → Nat)
    (k remaining : Nat) (hpre : ∀ j, j < k → FailsRetryable model j) :
    ∃ last2, (∀ e, 0 < k → model (k - 1) = ModelOutcome.failure e → last2 = some e) ∧
      generateWithRetry model jitter (remaining + k) =
        retryLoop model jitter remaining k last2 (retriedIterations jitter 0 k) := by
  obtain ⟨last2, _, h2, heq⟩ := retryLoop_retried model jitter 0 k remaining none []
    (fun j hj => by simpa using hpre j hj)
  refine ⟨last2, ?_, ?_⟩
  · intro e hk he
    exact h2 e hk (by simpa using he)
  · simpa [generateWithRetry] using heq

theorem generateWithRetry_rethrows (model : Nat → ModelOutcome) (jitter : Nat → Nat)
    (maxRetries k : Nat) (hk : k < maxRetries) (hpre : ∀ j, j < k → FailsRetryable model j)
    (e : ApiError) (he : attemptResult (model k) = .error e) (hr : isRetryable e = false) :
    generateWithRetry model jitter maxRetries =
      ⟨.error (some e), retriedIterations jitter 0 k ++ [RetryEvent.call k]⟩ := by
  obtain ⟨last2, _, heq⟩ := generateWithRetry_retried model jitter k (maxRetries - k - 1 + 1) hpre
  rw [show maxRetries = maxRetries - k - 1 + 1 + k by omega, heq, retryLoop]
  simp only [he, hr, Bool.false_eq_true, if_false]

theorem generateWithRetry_returns (model : Nat → ModelOutcome) (jitter : Nat → Nat)
    (maxRetries k : Nat) (hk : k < maxRetries) (hpre : ∀ j, j < k → FailsRetryable model j)
    (t : String) (ht : attemptResult (model k) = .ok t) :
    generateWithRetry model jitter maxRetries =
      ⟨.ok t, retriedIterations jitter 0 k ++ [RetryEvent.call k]⟩ := by
  obtain ⟨last2, _, heq⟩ := generateWithRetry_retried model jitter k (maxRetries - k - 1 + 1) hpre
  rw [show maxRetries = maxRetries - k - 1 + 1 + k by omega, heq, retryLoop]
  simp only [ht]

theorem isRetryable_eq_false (e : ApiError) (h429 : e.status ≠ some 429)
    (h503 : e.status ≠ some 503) : isRetryable e = false := by
  simp [isRetryable, h429, h503]

/-- C12: `generateWithRetry` retries a failed model call only when the status of the
error is 429 or 503. When a call fails with an error of any other status or without a
status, or returns an empty text (which raises the error 'AI returned an empty
response.'), that same error is thrown at once: the call is the last event of the run,
so no further model call and no wait follows it. -/
theorem retry_only_on_429_503 (model : Nat → ModelOutcome) (jitter : Nat → Nat)
    (maxRetries k : Nat) (hk : k < maxRetries)
    (hpre : ∀ j, j < k → FailsRetryable model j) :
    (∀ e, model k = ModelOutcome.failure e → e.status ≠ some 429 → e.status ≠ some 503 →
      generateWithRetry model jitter maxRetries =
          ⟨.error (some e), retriedIterations jitter 0 k ++ [RetryEvent.call k]⟩ ∧
        callCount (generateWithRetry model jitter maxRetries).trace = k + 1 ∧
        waitCount (generateWithRetry model jitter maxRetries).trace = k) ∧
    (model k = ModelOutcome.text "" →
      generateWithRetry model jitter maxRetries =
          ⟨.error (some emptyResponseError),
            retriedIterations jitter 0 k ++ [RetryEvent.call k]⟩ ∧
        callCount (generateWithRetry model jitter maxRetries).trace = k + 1 ∧
        waitCount (generateWithRetry model jitter maxRetries).trace = k) := by
  have hcount : ∀ e, generateWithRetry model jitter maxRetries =
      ⟨.error (some e), retriedIterations jitter 0 k ++ [RetryEvent.call k]⟩ →
      callCount (generateWithRetry model jitter maxRetries).trace = k + 1 ∧
        waitCount (generateWithRetry model jitter maxRetries).trace = k := by
    intro e h
    rw [h]
    simp only [callCount_append, waitCount_append, callCount_retriedIterations,
      waitCount_retriedIterations]
    simp [callCount, waitCount]
  constructor
  · intro e he h429 h503
    have h := generateWithRetry_rethrows model jitter maxRetries k hk hpre e
      (by simp [attemptResult, he]) (isRetryable_eq_false e h429 h503)
    exact ⟨h, hcount e h⟩
  · intro he
    have h := generateWithRetry_rethrows model jitter maxRetries k hk hpre emptyResponseError
      (by simp [attemptResult, he]) (by decide)
    exact ⟨h, hcount _ h⟩

theorem retry_only_on_429_503_witness :
    ((1 < 3 ∧ ∀ j, j < 1 → FailsRetryable (failingThen 1 (ModelOutcome.text "")) j) ∧
      (failingThen 1 (ModelOutcome.text "") 1 = ModelOutcome.text "" →
        generateWithRetry (failingThen 1 (ModelOutcome.text "")) (fun _ => 7) 3 =
          ⟨.error (some emptyResponseError),
            retriedIterations (fun _ => 7) 0 1 ++ [RetryEvent.call 1]⟩)) ∧
    generateWithRetry (failingThen 1 (ModelOutcome.text "")) (fun _ => 7) 3 =
      ⟨.error (some emptyResponseError),
        [RetryEvent.call 0, RetryEvent.wait 2007, RetryEvent.call 1]⟩ ∧
    generateWithRetry (failingThen 0 (ModelOutcome.failure ⟨some 400, "Bad Request"⟩))
        (fun _ => 7) 3 =
      ⟨.error (some ⟨some 400, "Bad Request"⟩), [RetryEvent.call 0]⟩ := by
  have hpre : ∀ j, j < 1 → FailsRetryable (failingThen 1 (ModelOutcome.text "")) j := by
    intro j hj
    have hj0 : j = 0 := by omega
    subst hj0
    exact ⟨⟨some 503, "Service Unavailable"⟩, rfl, rfl⟩
  have h := (retry_only_on_429_503 (failingThen 1 (ModelOutcome.text "")) (fun _ => 7) 3 1
    (by decide) hpre).2
  exact ⟨⟨⟨by decide, hpre⟩, fun h1 => (h h1).1⟩, by decide, by decide⟩

/-- C13: for `maxRetries >= 1`, `generateWithRetry` is a total function of the sequence
of model outcomes and makes at most `maxRetries` model calls. When each of the
`maxRetries` calls fails with status 429 or 503 it throws the error of the last call
after exactly `maxRetries` calls; when the first call that does not fail with 429 or 503
returns a non-empty text, it returns exactly that text. -/
theorem retry_bounded (model : Nat → ModelOutcome) (jitter : Nat → Nat) (maxRetries : Nat)
    (hmax : 1 ≤ maxRetries) :
    callCount (generateWithRetry model jitter maxRetries).trace ≤ maxRetries ∧
    ((∀ j, j < maxRetries → FailsRetryable model j) →
      ∃ e, model (maxRetries - 1) = ModelOutcome.failure e ∧
        (generateWithRetry model jitter maxRetries).result = .error (some e) ∧
        callCount (generateWithRetry model jitter maxRetries).trace = maxRetries) ∧
    (∀ k t, k < maxRetries → (∀ j, j < k → FailsRetryable model j) →
      model k = ModelOutcome.text t → t ≠ "" →
      (generateWithRetry model jitter maxRetries).result = .ok t ∧
        callCount (generateWithRetry model jitter maxRetries).trace = k + 1) := by
  refine ⟨?_, ?_, ?_⟩
  · have h := callCount_retryLoop_le model jitter maxRetries 0 none []
    simpa [generateWithRetry, callCount] using h
  · intro hall
    obtain ⟨e, he, _⟩ := hall (maxRetries - 1) (by omega)
    obtain ⟨last2, h2, heq⟩ := generateWithRetry_retried model jitter maxRetries 0 hall
    have hl : last2 = some e := h2 e (by omega) he
    rw [Nat.zero_add] at heq
    refine ⟨e, he, ?_, ?_⟩
    · rw [heq, retryLoop, hl]
    · rw [heq, retryLoop]
      exact callCount_retriedIterations jitter 0 maxRetries
  · intro k t hk hpre hm ht
    have h := generateWithRetry_returns model jitter maxRetries k hk hpre t
      (by simp [attemptResult, hm, ht])
    rw [h]
    refine ⟨rfl, ?_⟩
    simp only [callCount_append, callCount_retriedIterations]
    simp [callCount]

theorem retry_bounded_witness :
    (1 ≤ 3 ∧
      callCount (generateWithRetry (failingThen 5 (ModelOutcome.text "hello"))
        (fun _ => 7) 3).trace ≤ 3) ∧
    generateWithRetry (failingThen 5 (ModelOutcome.text "hello")) (fun _ => 7) 3 =
      ⟨.error (some ⟨some 503, "Service Unavailable"⟩),
        [RetryEvent.call 0, RetryEvent.wait 2007, RetryEvent.call 1, RetryEvent.wait 4007,
          RetryEvent.call 2, RetryEvent.wait 8007]⟩ ∧
    generateWithRetry (failingThen 1 (ModelOutcome.text "hello")) (fun _ => 7) 3 =
      ⟨.ok "hello", [RetryEvent.call 0, RetryEvent.wait 2007, RetryEvent.call 1]⟩ :=
  ⟨⟨by decide, (retry_bounded (failingThen 5 (ModelOutcome.text "hello")) (fun _ => 7) 3
    (by decide)).1⟩, by decide, by decide⟩

/-! ## Parsing flashcards and quiz questions -/

theorem foldl_push_eq_filterMap {α β : Type} (f : α → Option β)
    (g : List β → α → List β)
    (hsome : ∀ acc x c, f x = some c → g acc x = acc ++ [c])
    (hnone : ∀ acc x, f x = none → g acc x = acc) (l : List α) :
    ∀ init : List β, l.foldl g init = init ++ l.filterMap f := by
  induction l with
  | nil => intro init; simp
  | cons x l ih =>
    intro init
    rw [List.foldl_cons, ih]
    cases hx : f x with
    | none => simp [List.filterMap_cons, hx, hnone init x hx]
    | some c => simp [List.filterMap_cons, hx, hsome init x c hx]

theorem parseFlashcards_eq (generatedText : String) (count : Nat) :
    parseFlashcards generatedText count =
      ((responseBlocks generatedText).filterMap parseFlashcardBlock).take count := by
  unfold parseFlashcards
  rw [foldl_push_eq_filterMap parseFlashcardBlock _
    (fun acc x c h => by simp only [h]) (fun acc x h => by simp only [h]), List.nil_append]

theorem parseQuiz_eq (generatedText : String) (numQuestions : Nat) :
    parseQuiz generatedText numQuestions =
      ((responseBlocks generatedText).filterMap parseQuizBlock).take numQuestions := by
  unfold parseQuiz
  rw [foldl_push_eq_filterMap parseQuizBlock _
    (fun acc x c h => by simp only [h]) (fun acc x h => by simp only [h]), List.nil_append]

theorem flashcardLine_difficulty_mem (st : Flashcard) (line : List Char)
    (h : st.difficulty ∈ difficultyLevels) :
    (flashcardLine st line).difficulty ∈ difficultyLevels := by
  unfold flashcardLine
  split_ifs with h1 h2 h3 h4
  · exact h
  · exact h
  · simpa using h4
  · exact h
  · exact h

theorem flashcardLines_difficulty_mem (lines : List (List Char)) :
    ∀ st : Flashcard, st.difficulty ∈ difficultyLevels →
      (lines.foldl flashcardLine st).difficulty ∈ difficultyLevels := by
  induction lines with
  | nil => intro st h; exact h
  | cons l ls ih =>
    intro st h
    exact ih _ (flashcardLine_difficulty_mem st l h)

theorem flashcardLines_difficulty_unset (lines : List (List Char))
    (hno : ∀ line ∈ lines,
      ¬ ("D:".toList.isPrefixOf line = true ∧
        difficultyLevels.contains (levelAfter line) = true)) :
    ∀ st : Flashcard, (lines.foldl flashcardLine st).difficulty = st.difficulty := by
  induction lines with
  | nil => intro st; rfl
  | cons l ls ih =>
    intro st
    rw [List.foldl_cons, ih (fun line hl => hno line (List.mem_cons_of_mem _ hl))]
    have hl := hno l (List.mem_cons_self _ _)
    unfold flashcardLine
    split_ifs with h1 h2 h3 h4
    · rfl
    · rfl
    · exact absurd ⟨h3, h4⟩ hl
    · rfl
    · rfl

theorem flashcardLines_question_unset (lines : List (List Char))
    (hno : ∀ line ∈ lines, "Q:".toList.isPrefixOf line = false) :
    ∀ st : Flashcard, (lines.foldl flashcardLine st).question = st.question := by
  induction lines with
  | nil => intro st; rfl
  | cons l ls ih =>
    intro st
    rw [List.foldl_cons, ih (fun line hl => hno line (List.mem_cons_of_mem _ hl))]
    have hl := hno l (List.mem_cons_self _ _)
    unfold flashcardLine
    rw [hl]
    simp only [Bool.false_eq_true, if_false]
    split_ifs <;> rfl

theorem flashcardLines_answer_unset (lines : List (List Char))
    (hno : ∀ line ∈ lines, "A:".toList.isPrefixOf line = false) :
    ∀ st : Flashcard, (lines.foldl flashcardLine st).answer = st.answer := by
  induction lines with
  | nil => intro st; rfl
  | cons l ls ih =>
    intro st
    rw [List.foldl_cons, ih (fun line hl => hno line (List.mem_cons_of_mem _ hl))]
    have hl := hno l (List.mem_cons_self _ _)
    unfold flashcardLine
    rw [hl]
    simp only [Bool.false_eq_true, if_false]
    split_ifs <;> rfl

theorem parseFlashcardBlock_some (card : List Char) (c : Flashcard)
    (h : parseFlashcardBlock card = some c) :
    c = (splitLines (jsTrim card)).foldl flashcardLine ⟨"", "", "medium"⟩ ∧
      c.question ≠ "" ∧ c.answer ≠ "" := by
  unfold parseFlashcardBlock at h
  simp only at h
  split_ifs at h with hc
  injection h with h
  subst h
  exact ⟨rfl, hc.1, hc.2⟩

theorem generateWithRetry_first_text (model : Nat → ModelOutcome) (jitter : Nat → Nat)
    (maxRetries : Nat) (hmax : 0 < maxRetries) (t : String) (hm : model 0 = ModelOutcome.text t)
    (ht : t ≠ "") :
    (generateWithRetry model jitter maxRetries).result = .ok t := by
  rw [generateWithRetry_returns model jitter maxRetries 0 hmax
    (fun j hj => absurd hj (by omega)) t (by simp [attemptResult, hm, ht])]

/-- C14: for every response text and every `count`, the cards that `generateFlashcards`
returns are at most `count`, they are the cards of the '---'-separated blocks in the
order of the blocks, and each has a non-empty question, a non-empty answer and a
difficulty among 'easy', 'medium', 'hard'; the difficulty is 'medium' when no `D:` line
of the block carries one of the three levels, and a block without a `Q:` line or without
an `A:` line gives no card. -/
theorem flashcards_parsed (generatedText : String) (count : Nat) :
    (parseFlashcards generatedText count).length ≤ count ∧
    parseFlashcards generatedText count =
      ((responseBlocks generatedText).filterMap parseFlashcardBlock).take count ∧
    (∀ c ∈ parseFlashcards generatedText count,
      c.question ≠ "" ∧ c.answer ≠ "" ∧
        (c.difficulty = "easy" ∨ c.difficulty = "medium" ∨ c.difficulty = "hard")) ∧
    (∀ card c, parseFlashcardBlock card = some c →
      (∀ line ∈ splitLines (jsTrim card),
        ¬ ("D:".toList.isPrefixOf line = true ∧
          difficultyLevels.contains (levelAfter line) = true)) →
      c.difficulty = "medium") ∧
    (∀ card,
      ((∀ line ∈ splitLines (jsTrim card), "Q:".toList.isPrefixOf line = false) ∨
        (∀ line ∈ splitLines (jsTrim card), "A:".toList.isPrefixOf line = false)) →
      parseFlashcardBlock card = none) ∧
    (∀ (model : Nat → ModelOutcome) (jitter : Nat → Nat) (text : String),
      (jsTrim text.toList).isEmpty = false → model 0 = ModelOutcome.text generatedText →
      generatedText ≠ "" →
      generateFlashcards model jitter text count =
        .ok (parseFlashcards generatedText count)) := by
  refine ⟨?_, parseFlashcards_eq generatedText count, ?_, ?_, ?_, ?_⟩
  · rw [parseFlashcards_eq]
    exact (List.length_take_le _ _)
  · intro c hc
    rw [parseFlashcards_eq] at hc
    obtain ⟨card, _, hcard⟩ := List.mem_filterMap.1 (List.mem_of_mem_take hc)
    obtain ⟨hst, hq, ha⟩ := parseFlashcardBlock_some card c hcard
    refine ⟨hq, ha, ?_⟩
    have hd := flashcardLines_difficulty_mem (splitLines (jsTrim card))
      ⟨"", "", "medium"⟩ (by decide)
    rw [← hst] at hd
    simpa [difficultyLevels] using hd
  · intro card c hcard hno
    obtain ⟨hst, _, _⟩ := parseFlashcardBlock_some card c hcard
    rw [hst, flashcardLines_difficulty_unset _ hno]
  · intro card hno
    unfold parseFlashcardBlock
    rcases hno with hq | ha
    · simp [flashcardLines_question_unset _ hq]
    · simp [flashcardLines_answer_unset _ ha]
  · intro model jitter text htext hm hne
    unfold generateFlashcards
    rw [htext, generateWithRetry_first_text model jitter 3 (by decide) generatedText hm hne]
    simp

theorem flashcards_parsed_witness :
    (parseFlashcards exampleCards 1).length ≤ 1 ∧
    parseFlashcards exampleCards 5 =
      [⟨"What is a cell?", "The unit of life", "easy"⟩, ⟨"Why?", "Because", "medium"⟩] ∧
    parseFlashcards exampleCards 1 = [⟨"What is a cell?", "The unit of life", "easy"⟩] ∧
    parseFlashcardBlock "Q: No answer here\n".toList = none :=
  ⟨(flashcards_parsed exampleCards 1).1, by decide, by decide, by decide⟩

theorem isOptionLine_not_question (t : List Char) (h : isOptionLine t = true) :
    "Q:".toList.isPrefixOf t = false := by
  unfold isOptionLine at h
  split at h
  · rfl
  · exact absurd h (by simp)

theorem quizLine_difficulty_mem (st : QuizQuestion) (line : List Char)
    (h : st.difficulty ∈ difficultyLevels) :
    (quizLine st line).difficulty ∈ difficultyLevels := by
  unfold quizLine
  split_ifs with h1 h2 h3 h4 h5 h6
  · exact h
  · exact h
  · exact h
  · exact h
  · simpa using h6
  · exact h
  · exact h

theorem quizLines_difficulty_mem (lines : List (List Char)) :
    ∀ st : QuizQuestion, st.difficulty ∈ difficultyLevels →
      (lines.foldl quizLine st).difficulty ∈ difficultyLevels := by
  induction lines with
  | nil => intro st h; exact h
  | cons l ls ih =>
    intro st h
    exact ih _ (quizLine_difficulty_mem st l h)

theorem quizLines_difficulty_unset (lines : List (List Char))
    (hno : ∀ line ∈ lines,
      ¬ ("D:".toList.isPrefixOf (jsTrim line) = true ∧
        difficultyLevels.contains (levelAfter (jsTrim line)) = true)) :
    ∀ st : QuizQuestion, (lines.foldl quizLine st).difficulty = st.difficulty := by
  induction lines with
  | nil => intro st; rfl
  | cons l ls ih =>
    intro st
    rw [List.foldl_cons, ih (fun line hl => hno line (List.mem_cons_of_mem _ hl))]
    have hl := hno l (List.mem_cons_self _ _)
    unfold quizLine
    split_ifs with h1 h2 h3 h4 h5 h6
    · rfl
    · rfl
    · rfl
    · rfl
    · exact absurd ⟨h5, h6⟩ hl
    · rfl
    · rfl

theorem quizLines_question_unset (lines : List (List Char))
    (hno : ∀ line ∈ lines, "Q:".toList.isPrefixOf (jsTrim line) = false) :
    ∀ st : QuizQuestion, (lines.foldl quizLine st).question = st.question := by
  induction lines with
  | nil => intro st; rfl
  | cons l ls ih =>
    intro st
    rw [List.foldl_cons, ih (fun line hl => hno line (List.mem_cons_of_mem _ hl))]
    have hl := hno l (List.mem_cons_self _ _)
    unfold quizLine
    rw [hl]
    simp only [Bool.false_eq_true, if_false]
    split_ifs <;> rfl

theorem quizLines_correctAnswer_unset (lines : List (List Char))
    (hno : ∀ line ∈ lines, "C:".toList.isPrefixOf (jsTrim line) = false) :
    ∀ st : QuizQuestion, (lines.foldl quizLine st).correctAnswer = st.correctAnswer := by
  induction lines with
  | nil => intro st; rfl
  | cons l ls ih =>
    intro st
    rw [List.foldl_cons, ih (fun line hl => hno line (List.mem_cons_of_mem _ hl))]
    have hl := hno l (List.mem_cons_self _ _)
    unfold quizLine
    rw [hl]
    simp only [Bool.false_eq_true, if_false]
    split_ifs <;> rfl

theorem quizLines_options (lines : List (List Char)) :
    ∀ st : QuizQuestion, (lines.foldl quizLine st).options =
      st.options ++ ((lines.map jsTrim).filter isOptionLine).map (fieldAfter 3) := by
  induction lines with
  | nil => intro st; simp
  | cons l ls ih =>
    intro st
    rw [List.foldl_cons, ih]
    by_cases ho : isOptionLine (jsTrim l) = true
    · have hq := isOptionLine_not_question _ ho
      have : (quizLine st l).options = st.options ++ [fieldAfter 3 (jsTrim l)] := by
        unfold quizLine
        rw [hq, ho]
        simp only [Bool.false_eq_true, if_false, if_true]
      simp [this, ho]
    · have ho2 : isOptionLine (jsTrim l) = false := by simpa using ho
      have : (quizLine st l).options = st.options := by
        unfold quizLine
        rw [ho2]
        simp only [Bool.false_eq_true, if_false]
        split_ifs <;> rfl
      simp [this, ho2]

theorem parseQuizBlock_some (block : List Char) (q : QuizQuestion)
    (h : parseQuizBlock block = some q) :
    q = (splitLines (jsTrim block)).foldl quizLine ⟨"", [], "", "", "medium"⟩ ∧
      q.question ≠ "" ∧ 2 ≤ q.options.length ∧ q.correctAnswer ≠ "" := by
  unfold parseQuizBlock at h
  simp only at h
  split_ifs at h with hc
  injection h with h
  subst h
  exact ⟨rfl, hc.1, hc.2.1, hc.2.2⟩

/-- C15: for every response text and every `numQuestions`, the questions that
`generateQuiz` returns are at most `numQuestions`, they come from the '---'-separated
blocks in the order of the blocks, and each has a non-empty question, at least two
options, which are the contents of its `O<digit>:` lines in line order, a non-empty
correct answer and a difficulty among 'easy', 'medium', 'hard', which is 'medium' when no
`D:` line carries one of the three levels; a block without a `Q:` line, with fewer than
two option lines or without a `C:` line gives no question. -/
theorem quiz_parsed (generatedText : String) (numQuestions : Nat) :
    (parseQuiz generatedText numQuestions).length ≤ numQuestions ∧
    parseQuiz generatedText numQuestions =
      ((responseBlocks generatedText).filterMap parseQuizBlock).take numQuestions ∧
    (∀ q ∈ parseQuiz generatedText numQuestions,
      q.question ≠ "" ∧ 2 ≤ q.options.length ∧ q.correctAnswer ≠ "" ∧
        (q.difficulty = "easy" ∨ q.difficulty = "medium" ∨ q.difficulty = "hard")) ∧
    (∀ block q, parseQuizBlock block = some q →
      q.options =
        (((splitLines (jsTrim block)).map jsTrim).filter isOptionLine).map (fieldAfter 3)) ∧
    (∀ block q, parseQuizBlock block = some q →
      (∀ line ∈ splitLines (jsTrim block),
        ¬ ("D:".toList.isPrefixOf (jsTrim line) = true ∧
          difficultyLevels.contains (levelAfter (jsTrim line)) = true)) →
      q.difficulty = "medium") ∧
    (∀ block,
      ((∀ line ∈ splitLines (jsTrim block), "Q:".toList.isPrefixOf (jsTrim line) = false) ∨
        (((splitLines (jsTrim block)).map jsTrim).filter isOptionLine).length < 2 ∨
        (∀ line ∈ splitLines (jsTrim block), "C:".toList.isPrefixOf (jsTrim line) = false)) →
      parseQuizBlock block = none) ∧
    (∀ (model : Nat → ModelOutcome) (jitter : Nat → Nat) (text : String),
      (jsTrim text.toList).isEmpty = false → model 0 = ModelOutcome.text generatedText →
      generatedText ≠ "" →
      generateQuiz model jitter text numQuestions =
        .ok (parseQuiz generatedText numQuestions)) := by
  refine ⟨?_, parseQuiz_eq generatedText numQuestions, ?_, ?_, ?_, ?_, ?_⟩
  · rw [parseQuiz_eq]
    exact (List.length_take_le _ _)
  · intro q hq
    rw [parseQuiz_eq] at hq
    obtain ⟨block, _, hblock⟩ := List.mem_filterMap.1 (List.mem_of_mem_take hq)
    obtain ⟨hst, h1, h2, h3⟩ := parseQuizBlock_some block q hblock
    refine ⟨h1, h2, h3, ?_⟩
    have hd := quizLines_difficulty_mem (splitLines (jsTrim block))
      ⟨"", [], "", "", "medium"⟩ (by decide)
    rw [← hst] at hd
    simpa [difficultyLevels] using hd
  · intro block q hblock
    obtain ⟨hst, _, _, _⟩ := parseQuizBlock_some block q hblock
    rw [hst, quizLines_options]
    simp
  · intro block q hblock hno
    obtain ⟨hst, _, _, _⟩ := parseQuizBlock_some block q hblock
    rw [hst, quizLines_difficulty_unset _ hno]
  · intro block hno
    unfold parseQuizBlock
    rcases hno with hq | ho | hc
    · simp [quizLines_question_unset _ hq]
    · have : ¬ 2 ≤ ((List.foldl quizLine ⟨"", [], "", "", "medium"⟩
          (splitLines (jsTrim block))).options).length := by
        rw [quizLines_options]
        simpa using ho
      simp [this]
    · simp [quizLines_correctAnswer_unset _ hc]
  · intro model jitter text htext hm hne
    unfold generateQuiz
    rw [htext, generateWithRetry_first_text model jitter 3 (by decide) generatedText hm hne]
    simp

theorem quiz_parsed_witness :
    (parseQuiz exampleQuiz 1).length ≤ 1 ∧
    parseQuiz exampleQuiz 5 = [⟨"1+1?", ["1", "2"], "2", "sum", "hard"⟩] ∧
    parseQuizBlock "Q: 2+2?\nO1: 4\nC: 4".toList = none :=
  ⟨(quiz_parsed exampleQuiz 1).1, by decide, by decide⟩

/-! ## `errorHandler` -/

/-- C16 as stated fails. An error named `CastError` that carries the code 11000 is
answered with 400 and 'email already exists', not with 404 and 'Resource not Found',
because the later test overwrites the earlier one; and an error with the code 11000 and
no `keyValue` makes the handler throw, so that no JSON body is sent. The codes of both
inputs are numbers, so the string conversion is not used. -/
theorem errorHandler_rules_overlap :
    castErrorWithDuplicateKey.name = some "CastError" ∧
    errorHandler (fun _ => none) false castErrorWithDuplicateKey =
      some ⟨400, ⟨false, "email already exists", 400, none⟩⟩ ∧
    errorHandler (fun _ => none) false castErrorWithDuplicateKey ≠
      some ⟨404, ⟨false, "Resource not Found", 404, none⟩⟩ ∧
    errorHandler (fun _ => none) false duplicateKeyWithoutKeyValue = none := by
  decide

/-- C16, amended: when `keyValue` is present on an error with code 11000 and `errors` is
present on an error named `ValidationError`, `errorHandler` answers with a JSON body
`{success: false, error: message, statusCode}` (with the stack in development) whose
`statusCode` is the HTTP status it sets, and the status and message are those of the last
rule that applies, in the order `CastError` (404), code 11000 (400), `ValidationError`
(400), `LIMIT_FILE_SIZE` (400), `JsonWebTokenError` (401), `TokenExpiredError` (401), or
`err.statusCode` (or 500) and `err.message` (or 'Something went wrong') when none
applies. -/
theorem errorHandler_last_rule (stringToNumber : String → Option Int) (development : Bool)
    (err : AppError)
    (hkv : codeIs11000 stringToNumber err.code = true → err.keyValue.isSome = true)
    (herrs : err.name = some "ValidationError" → err.errors.isSome = true) :
    errorHandler stringToNumber development err =
      some ⟨(lastRule stringToNumber err).1,
        ⟨false, (lastRule stringToNumber err).2, (lastRule stringToNumber err).1,
          if development then err.stack else none⟩⟩ := by
  unfold errorHandler lastRule
  by_cases h2 : codeIs11000 stringToNumber err.code = true <;>
  by_cases n3 : err.name = some "ValidationError" <;>
  by_cases n1 : err.name = some "CastError" <;>
  by_cases n5 : err.name = some "JsonWebTokenError" <;>
  by_cases n6 : err.name = some "TokenExpiredError" <;>
  by_cases c4 : err.code = some (ErrCode.str "LIMIT_FILE_SIZE") <;>
  cases hk : err.keyValue <;>
  cases he : err.errors <;>
  simp_all

theorem errorHandler_last_rule_witness :
    ((codeIs11000 (fun _ => none) castErrorWithDuplicateKey.code = true →
        castErrorWithDuplicateKey.keyValue.isSome = true) ∧
      (castErrorWithDuplicateKey.name = some "ValidationError" →
        castErrorWithDuplicateKey.errors.isSome = true)) ∧
    errorHandler (fun _ => none) true castErrorWithDuplicateKey =
      some ⟨(lastRule (fun _ => none) castErrorWithDuplicateKey).1,
        ⟨false, (lastRule (fun _ => none) castErrorWithDuplicateKey).2,
          (lastRule (fun _ => none) castErrorWithDuplicateKey).1,
          if true then castErrorWithDuplicateKey.stack else none⟩⟩ ∧
    lastRule (fun _ => none) castErrorWithDuplicateKey = (400, "email already exists") ∧
    errorHandler (fun _ => none) false
        ⟨some "TokenExpiredError", some "jwt expired", none, none, none, none, none⟩ =
      some ⟨401, ⟨false, "Token expired", 401, none⟩⟩ ∧
    errorHandler (fun _ => none) false ⟨some "Error", none, none, none, none, none, none⟩ =
      some ⟨500, ⟨false, "Something went wrong", 500, none⟩⟩ :=
  ⟨⟨by decide, by decide⟩,
    errorHandler_last_rule (fun _ => none) true castErrorWithDuplicateKey (by decide)
      (by decide),
    by decide, by decide, by decide⟩

/-! ## Password reset -/

theorem saveUser_saveUser (db : List User) (u1 u2 : User) (h : u1.id = u2.id) :
    saveUser (saveUser db u1) u2 = saveUser db u2 := by
  unfold saveUser
  rw [List.map_map]
  apply List.map_congr_left
  intro v _
  by_cases hv : v.id = u1.id
  · simp [Function.comp, hv, h]
  · have hv2 : ¬ v.id = u2.id := by rw [← h]; exact hv
    simp [Function.comp, hv, hv2]

theorem mem_saveUser (db : List User) (u w : User) (hw : w ∈ saveUser db u) :
    (w = u ∧ ∃ v ∈ db, v.id = u.id) ∨ (w ∈ db ∧ w.id ≠ u.id) := by
  unfold saveUser at hw
  obtain ⟨v, hv, hvw⟩ := List.mem_map.1 hw
  by_cases h : v.id = u.id
  · left
    simp only [h, if_true] at hvw
    exact ⟨hvw.symm, v, hv, h⟩
  · right
    simp only [h, if_false] at hvw
    subst hvw
    exact ⟨hv, h⟩

theorem mem_saveUser_self (db : List User) (u : User) (h : ∃ v ∈ db, v.id = u.id) :
    u ∈ saveUser db u := by
  obtain ⟨v, hv, hid⟩ := h
  unfold saveUser
  exact List.mem_map.2 ⟨v, hv, by simp [hid]⟩

theorem findUserByEmail_mem (rt : Runtime) (db : List User) (email : String) (user : User)
    (h : findUserByEmail rt db email = some user) : user ∈ db :=
  List.mem_of_find?_eq_some h

theorem find?_eq_some_of_unique {α : Type} (p : α → Bool) (l : List α) (x : α)
    (hx : x ∈ l) (hp : p x = true) (huniq : ∀ y ∈ l, p y = true → y = x) :
    l.find? p = some x := by
  cases hf : l.find? p with
  | none =>
    have := List.find?_eq_none.1 hf x hx
    simp [hp] at this
  | some w =>
    have hw := List.mem_of_find?_eq_some hf
    have hpw := List.find?_some hf
    rw [huniq w hw hpw]

theorem forgotPassword_mail_failed (rt : Runtime) (env : ForgotEnv) (db : List User)
    (email : String) (user : User) (hemail : email ≠ "")
    (hfind : findUserByEmail rt db email = some user) (hmail : env.mailOk = false) :
    forgotPassword rt env db (some email) =
      ⟨saveUser db { user with resetPasswordToken := none, resetPasswordExpire := none },
        ⟨500, false, some "Failed to send reset email. Please try again later.", none,
          some 500⟩,
        some ⟨user.email, env.resetToken, user.username⟩⟩ := by
  simp only [forgotPassword, hemail, if_false, hfind, hmail, Bool.false_eq_true,
    User.getResetPasswordToken]
  congr 1
  exact saveUser_saveUser _ _ _ rfl

theorem forgotPassword_mail_sent (rt : Runtime) (env : ForgotEnv) (db : List User)
    (email : String) (user : User) (hemail : email ≠ "")
    (hfind : findUserByEmail rt db email = some user) (hmail : env.mailOk = true) :
    forgotPassword rt env db (some email) =
      ⟨saveUser db { user with
          resetPasswordToken := some (rt.sha256 env.resetToken),
          resetPasswordExpire := some (env.now + 10 * 60 * 1000) },
        resetLinkNotice,
        some ⟨user.email, env.resetToken, user.username⟩⟩ := by
  simp only [forgotPassword, hemail, if_false, hfind, hmail, if_true,
    User.getResetPasswordToken]

theorem forgotPassword_same_answer_when_mail_sent (rt : Runtime) (env : ForgotEnv)
    (db : List User) (email : String) (hemail : email ≠ "") (hmail : env.mailOk = true) :
    (forgotPassword rt env db (some email)).response = resetLinkNotice := by
  cases hfind : findUserByEmail rt db email with
  | none => simp only [forgotPassword, hemail, if_false, hfind]
  | some user => rw [forgotPassword_mail_sent rt env db email user hemail hfind hmail]

/-- C17 fails on the code: `forgotPassword` reveals that an account exists when the reset
mail cannot be sent. For the address of an existing user and a failing
`sendPasswordResetEmail` the answer is 500 'Failed to send reset email. Please try again
later.', while for an unknown address it is 200 with the neutral notice. -/
theorem forgotPassword_reveals_on_mail_failure :
    (forgotPassword exampleRuntime ⟨1000, "abcd", false⟩ exampleUsers
        (some "alice@example.com")).response =
      ⟨500, false, some "Failed to send reset email. Please try again later.", none,
        some 500⟩ ∧
    (forgotPassword exampleRuntime ⟨1000, "abcd", false⟩ exampleUsers
        (some "bob@example.com")).response = resetLinkNotice ∧
    (forgotPassword exampleRuntime ⟨1000, "abcd", false⟩ exampleUsers
        (some "alice@example.com")).response ≠
      (forgotPassword exampleRuntime ⟨1000, "abcd", false⟩ exampleUsers
        (some "bob@example.com")).response := by
  decide

theorem resetPassword_not_found (rt : Runtime) (now : Nat) (db : List User)
    (resetToken : String) (password confirmPassword : Option String)
    (h : ∀ u ∈ db, holdsValidToken (rt.sha256 resetToken) now u = false) :
    resetPassword rt now db resetToken password confirmPassword =
      (db, invalidTokenResponse) := by
  have hf : db.find? (holdsValidToken (rt.sha256 resetToken) now) = none := by
    rw [List.find?_eq_none]
    intro u hu
    simp [h u hu]
  simp only [resetPassword, hf]

theorem resetPassword_db_cases (rt : Runtime) (now : Nat) (db : List User)
    (resetToken : String) (password confirmPassword : Option String) :
    (resetPassword rt now db resetToken password confirmPassword).1 = db ∨
    ∃ w, db.find? (holdsValidToken (rt.sha256 resetToken) now) = some w ∧
      (resetPassword rt now db resetToken password confirmPassword).1 =
        saveUser db { w with
          password := rt.bcryptHash (password.getD ""),
          resetPasswordToken := none,
          resetPasswordExpire := none } := by
  cases hf : db.find? (holdsValidToken (rt.sha256 resetToken) now) with
  | none =>
    left
    simp only [resetPassword, hf]
  | some w =>
    by_cases h1 : password.getD "" = "" ∨ confirmPassword.getD "" = ""
    · left
      simp only [resetPassword, hf, h1, if_true]
    · by_cases h2 : password ≠ confirmPassword
      · left
        simp [resetPassword, hf, h1, h2]
      · by_cases h3 : utf16Length (password.getD "") < 6
        · left
          simp [resetPassword, hf, h1, h2, h3]
        · right
          refine ⟨w, rfl, ?_⟩
          simp [resetPassword, hf, h1, h2, h3]

theorem holdsValidToken_iff (digest : String) (now : Nat) (u : User) :
    holdsValidToken digest now u = true ↔
      u.resetPasswordToken = some digest ∧
        ∃ expire, u.resetPasswordExpire = some expire ∧ now < expire := by
  unfold holdsValidToken
  cases he : u.resetPasswordExpire with
  | none => simp
  | some e => simp

/-- C18: when sending the reset mail fails, `forgotPassword` answers 500 and the saved
record of the user has `resetPasswordToken` and `resetPasswordExpire` cleared. A later
`resetPassword` call with the generated token, at any time and with any body, leaves that
record as it is, and it is answered 400 'Invalid or expired reset token' without any
change when no other record stores the digest of that token. -/
theorem mail_failure_clears_token (rt : Runtime) (env : ForgotEnv) (db : List User)
    (email : String) (user : User) (hemail : email ≠ "")
    (hfind : findUserByEmail rt db email = some user) (hmail : env.mailOk = false) :
    (forgotPassword rt env db (some email)).response.status = 500 ∧
    (forgotPassword rt env db (some email)).db =
      saveUser db { user with resetPasswordToken := none, resetPasswordExpire := none } ∧
    (∃ v ∈ (forgotPassword rt env db (some email)).db, v.id = user.id) ∧
    (∀ v ∈ (forgotPassword rt env db (some email)).db, v.id = user.id →
      v.resetPasswordToken = none ∧ v.resetPasswordExpire = none) ∧
    (∀ (later : Nat) (password confirmPassword : Option String),
      (∀ v ∈ (resetPassword rt later (forgotPassword rt env db (some email)).db
          env.resetToken password confirmPassword).1,
        v.id = user.id →
          v = { user with resetPasswordToken := none, resetPasswordExpire := none }) ∧
      ((∀ v ∈ db, v.id ≠ user.id →
          v.resetPasswordToken ≠ some (rt.sha256 env.resetToken)) →
        resetPassword rt later (forgotPassword rt env db (some email)).db env.resetToken
            password confirmPassword =
          ((forgotPassword rt env db (some email)).db, invalidTokenResponse))) := by
  rw [forgotPassword_mail_failed rt env db email user hemail hfind hmail]
  have huser := findUserByEmail_mem rt db email user hfind
  have hcleared : ∀ v ∈ saveUser db
      { user with resetPasswordToken := none, resetPasswordExpire := none },
      v.id = user.id →
        v = { user with resetPasswordToken := none, resetPasswordExpire := none } := by
    intro v hv hid
    rcases mem_saveUser _ _ _ hv with h | h
    · exact h.1
    · exact absurd hid h.2
  have hnot : ∀ v ∈ saveUser db
      { user with resetPasswordToken := none, resetPasswordExpire := none },
      ∀ later, holdsValidToken (rt.sha256 env.resetToken) later v = true →
        v ∈ db ∧ v.id ≠ user.id := by
    intro v hv later hp
    rcases mem_saveUser _ _ _ hv with h | h
    · rw [h.1] at hp
      simp [holdsValidToken] at hp
    · exact h
  refine ⟨rfl, rfl, ⟨_, mem_saveUser_self db _ ⟨user, huser, rfl⟩, rfl⟩, ?_, ?_⟩
  · intro v hv hid
    rw [hcleared v hv hid]
    exact ⟨rfl, rfl⟩
  · intro later password confirmPassword
    constructor
    · intro v hv hid
      rcases resetPassword_db_cases rt later _ env.resetToken password confirmPassword
        with h | ⟨w, hw, h⟩
      · rw [h] at hv
        exact hcleared v hv hid
      · rw [h] at hv
        have hwid := (hnot w (List.mem_of_find?_eq_some hw) later (List.find?_some hw)).2
        rcases mem_saveUser _ _ _ hv with h2 | h2
        · rw [h2.1] at hid
          exact absurd hid hwid
        · exact hcleared v h2.1 hid
    · intro hfresh
      apply resetPassword_not_found
      intro u hu
      by_contra hp
      have hp2 : holdsValidToken (rt.sha256 env.resetToken) later u = true := by
        simpa using hp
      obtain ⟨hudb, huid⟩ := hnot u hu later hp2
      exact hfresh u hudb huid ((holdsValidToken_iff _ _ _).1 hp2).1

theorem mail_failure_clears_token_witness :
    (("alice@example.com" : String) ≠ "" ∧
      findUserByEmail exampleRuntime exampleUsers "alice@example.com" =
        some ⟨1, "alice", "alice@example.com", "bcrypt:secret1", none, none⟩) ∧
    (forgotPassword exampleRuntime ⟨1000, "abcd", false⟩ exampleUsers
        (some "alice@example.com")).db =
      saveUser exampleUsers ⟨1, "alice", "alice@example.com", "bcrypt:secret1", none, none⟩ ∧
    resetPassword exampleRuntime 2000
        (forgotPassword exampleRuntime ⟨1000, "abcd", false⟩ exampleUsers
          (some "alice@example.com")).db "abcd" (some "newpass") (some "newpass") =
      (exampleUsers, invalidTokenResponse) := by
  have h := mail_failure_clears_token exampleRuntime ⟨1000, "abcd", false⟩ exampleUsers
    "alice@example.com" ⟨1, "alice", "alice@example.com", "bcrypt:secret1", none, none⟩
    (by decide) (by decide) rfl
  exact ⟨⟨by decide, by decide⟩, h.2.1, by decide⟩

theorem resetPassword_accepts (rt : Runtime) (now : Nat) (db : List User)
    (resetToken pw : String) (w : User)
    (hf : db.find? (holdsValidToken (rt.sha256 resetToken) now) = some w)
    (hpw : 6 ≤ utf16Length pw) :
    resetPassword rt now db resetToken (some pw) (some pw) =
      (saveUser db { w with
          password := rt.bcryptHash pw,
          resetPasswordToken := none,
          resetPasswordExpire := none },
        ⟨200, true, none,
          some "Password reset successful. You can now login with your new password.",
          none⟩) := by
  have hne : pw ≠ "" := by
    intro h
    rw [h] at hpw
    exact absurd hpw (by decide)
  have h3 : ¬ utf16Length pw < 6 := by omega
  simp [resetPassword, hf, hne, h3]

/-- C19: the reset token makes the round trip. After `forgotPassword` has sent the mail,
the mail carries the unhashed token `t` returned by `getResetPasswordToken`, the record
of the user stores the SHA-256 hex digest of `t`, which is the value `resetPassword`
computes from the URL parameter, and `resetPassword` called with `t` before the expiry
time and with a matching password of at least 6 characters answers 200 and stores the
hash of the new password in that record. The token is taken to be fresh: no other
record stores its digest. -/
theorem reset_round_trip (rt : Runtime) (env : ForgotEnv) (db : List User)
    (email : String) (user : User) (hemail : email ≠ "")
    (hfind : findUserByEmail rt db email = some user) (hmail : env.mailOk = true)
    (hfresh : ∀ v ∈ db, v.id ≠ user.id →
      v.resetPasswordToken ≠ some (rt.sha256 env.resetToken))
    (now : Nat) (hnow : now < env.now + 600000) (pw : String) (hpw : 6 ≤ utf16Length pw) :
    (user.getResetPasswordToken rt env.now env.resetToken).2 = env.resetToken ∧
    (user.getResetPasswordToken rt env.now env.resetToken).1.resetPasswordToken =
      some (rt.sha256 env.resetToken) ∧
    (forgotPassword rt env db (some email)).mail =
      some ⟨user.email, env.resetToken, user.username⟩ ∧
    (forgotPassword rt env db (some email)).db =
      saveUser db (user.getResetPasswordToken rt env.now env.resetToken).1 ∧
    (forgotPassword rt env db (some email)).db.find?
        (holdsValidToken (rt.sha256 env.resetToken) now) =
      some (user.getResetPasswordToken rt env.now env.resetToken).1 ∧
    (resetPassword rt now (forgotPassword rt env db (some email)).db env.resetToken
        (some pw) (some pw)).2 =
      ⟨200, true, none,
        some "Password reset successful. You can now login with your new password.",
        none⟩ ∧
    (resetPassword rt now (forgotPassword rt env db (some email)).db env.resetToken
        (some pw) (some pw)).1 =
      saveUser db { user with
        password := rt.bcryptHash pw,
        resetPasswordToken := none,
        resetPasswordExpire := none } ∧
    (∃ v ∈ (resetPassword rt now (forgotPassword rt env db (some email)).db env.resetToken
        (some pw) (some pw)).1, v.id = user.id) ∧
    (∀ v ∈ (resetPassword rt now (forgotPassword rt env db (some email)).db env.resetToken
        (some pw) (some pw)).1,
      v.id = user.id → v.password = rt.bcryptHash pw) := by
  have huser := findUserByEmail_mem rt db email user hfind
  have hfound : (saveUser db (user.getResetPasswordToken rt env.now env.resetToken).1).find?
      (holdsValidToken (rt.sha256 env.resetToken) now) =
      some (user.getResetPasswordToken rt env.now env.resetToken).1 := by
    apply find?_eq_some_of_unique
    · exact mem_saveUser_self db _ ⟨user, huser, rfl⟩
    · rw [holdsValidToken_iff]
      exact ⟨rfl, env.now + 10 * 60 * 1000, rfl, by omega⟩
    · intro y hy hp
      rcases mem_saveUser _ _ _ hy with h | h
      · exact h.1
      · exact absurd ((holdsValidToken_iff _ _ _).1 hp).1 (hfresh y h.1 h.2)
  have hdb : (forgotPassword rt env db (some email)).db =
      saveUser db (user.getResetPasswordToken rt env.now env.resetToken).1 := by
    rw [forgotPassword_mail_sent rt env db email user hemail hfind hmail]
    rfl
  have hres := resetPassword_accepts rt now
    (saveUser db (user.getResetPasswordToken rt env.now env.resetToken).1)
    env.resetToken pw _ hfound hpw
  have hsave : saveUser (saveUser db (user.getResetPasswordToken rt env.now env.resetToken).1)
      { (user.getResetPasswordToken rt env.now env.resetToken).1 with
        password := rt.bcryptHash pw,
        resetPasswordToken := none,
        resetPasswordExpire := none } =
      saveUser db { user with
        password := rt.bcryptHash pw,
        resetPasswordToken := none,
        resetPasswordExpire := none } :=
    saveUser_saveUser _ _ _ rfl
  rw [hsave] at hres
  refine ⟨rfl, rfl, ?_, hdb, ?_, ?_, ?_, ?_, ?_⟩
  · rw [forgotPassword_mail_sent rt env db email user hemail hfind hmail]
  · rw [hdb]
    exact hfound
  · rw [hdb, hres]
  · rw [hdb, hres]
  · rw [hdb, hres]
    exact ⟨_, mem_saveUser_self db _ ⟨user, huser, rfl⟩, rfl⟩
  · rw [hdb, hres]
    intro v hv hid
    rcases mem_saveUser _ _ _ hv with h | h
    · rw [h.1]
    · exact absurd hid h.2

theorem reset_round_trip_witness :
    ((("alice@example.com" : String) ≠ "" ∧
      findUserByEmail exampleRuntime exampleUsers "alice@example.com" =
        some ⟨1, "alice", "alice@example.com", "bcrypt:secret1", none, none⟩) ∧
      600999 < 1000 + 600000 ∧ 6 ≤ utf16Length "newpass") ∧
    (resetPassword exampleRuntime 600999
        (forgotPassword exampleRuntime ⟨1000, "abcd", true⟩ exampleUsers
          (some "alice@example.com")).db "abcd" (some "newpass") (some "newpass")).1 =
      saveUser exampleUsers ⟨1, "alice", "alice@example.com", "bcrypt:newpass", none, none⟩ ∧
    resetPassword exampleRuntime 600999
        (forgotPassword exampleRuntime ⟨1000, "abcd", true⟩ exampleUsers
          (some "alice@example.com")).db "abcd" (some "newpass") (some "newpass") =
      ([⟨1, "alice", "alice@example.com", "bcrypt:newpass", none, none⟩],
        ⟨200, true, none,
          some "Password reset successful. You can now login with your new password.",
          none⟩) := by
  have h := reset_round_trip exampleRuntime ⟨1000, "abcd", true⟩ exampleUsers
    "alice@example.com" ⟨1, "alice", "alice@example.com", "bcrypt:secret1", none, none⟩
    (by decide) (by decide) rfl (by decide) 600999 (by decide) "newpass" (by decide)
  exact ⟨⟨⟨by decide, by decide⟩, by decide, by decide⟩, h.2.2.2.2.2.2.1, by decide⟩

/-- C20: a reset token expires after 10 minutes. `getResetPasswordToken` sets
`resetPasswordExpire` to its call time plus 600000 ms; `resetPassword` gets past the
token check only when some record stores the digest of the token with an expiry time
strictly greater than the current time; and when every record that stores the digest has
an expiry time at or before the current time, it answers 400 'Invalid or expired reset
token' and changes nothing. -/
theorem reset_token_expiry (rt : Runtime) (setAt : Nat) (resetToken : String) (user : User)
    (db : List User) (now : Nat) (password confirmPassword : Option String) :
    (user.getResetPasswordToken rt setAt resetToken).1.resetPasswordExpire =
      some (setAt + 600000) ∧
    ((resetPassword rt now db resetToken password confirmPassword).2 ≠ invalidTokenResponse →
      ∃ u ∈ db, ∃ expire, u.resetPasswordToken = some (rt.sha256 resetToken) ∧
        u.resetPasswordExpire = some expire ∧ now < expire) ∧
    ((∀ u ∈ db, u.resetPasswordToken = some (rt.sha256 resetToken) →
        ∀ expire, u.resetPasswordExpire = some expire → expire ≤ now) →
      resetPassword rt now db resetToken password confirmPassword =
        (db, invalidTokenResponse)) := by
  refine ⟨rfl, ?_, ?_⟩
  · intro hne
    cases hf : db.find? (holdsValidToken (rt.sha256 resetToken) now) with
    | none =>
      exfalso
      apply hne
      simp only [resetPassword, hf]
    | some w =>
      obtain ⟨ht, e, he, hlt⟩ := (holdsValidToken_iff _ _ _).1 (List.find?_some hf)
      exact ⟨w, List.mem_of_find?_eq_some hf, e, ht, he, hlt⟩
  · intro hall
    apply resetPassword_not_found
    intro u hu
    by_contra hp
    obtain ⟨ht, e, he, hlt⟩ := (holdsValidToken_iff _ _ _).1 (by simpa using hp)
    have := hall u hu ht e he
    omega

theorem reset_token_expiry_witness :
    (∀ u ∈ (forgotPassword exampleRuntime ⟨1000, "abcd", true⟩ exampleUsers
          (some "alice@example.com")).db,
        u.resetPasswordToken = some (exampleRuntime.sha256 "abcd") →
        ∀ expire, u.resetPasswordExpire = some expire → expire ≤ 601000) ∧
    resetPassword exampleRuntime 601000
        (forgotPassword exampleRuntime ⟨1000, "abcd", true⟩ exampleUsers
          (some "alice@example.com")).db "abcd" (some "newpass") (some "newpass") =
      ([⟨1, "alice", "alice@example.com", "bcrypt:secret1", some "sha256:abcd",
          some 601000⟩], invalidTokenResponse) ∧
    (resetPassword exampleRuntime 600999
        (forgotPassword exampleRuntime ⟨1000, "abcd", true⟩ exampleUsers
          (some "alice@example.com")).db "abcd" (some "newpass") (some "newpass")).2.status =
      200 := by
  have hall : ∀ u ∈ (forgotPassword exampleRuntime ⟨1000, "abcd", true⟩ exampleUsers
      (some "alice@example.com")).db,
      u.resetPasswordToken = some (exampleRuntime.sha256 "abcd") →
      ∀ expire, u.resetPasswordExpire = some expire → expire ≤ 601000 := by
    intro u hu _ expire he
    have hu2 : u = ⟨1, "alice", "alice@example.com", "bcrypt:secret1", some "sha256:abcd",
        some 601000⟩ := by
      have hdb : (forgotPassword exampleRuntime ⟨1000, "abcd", true⟩ exampleUsers
          (some "alice@example.com")).db =
          [⟨1, "alice", "alice@example.com", "bcrypt:secret1", some "sha256:abcd",
            some 601000⟩] := by decide
      rw [hdb] at hu
      simpa using hu
    rw [hu2] at he
    injection he with he
    omega
  have h := (reset_token_expiry exampleRuntime 1000 "abcd"
    ⟨1, "alice", "alice@example.com", "bcrypt:secret1", none, none⟩
    (forgotPassword exampleRuntime ⟨1000, "abcd", true⟩ exampleUsers
      (some "alice@example.com")).db 601000 (some "newpass") (some "newpass")).2.2 hall
  exact ⟨hall, h.trans (by decide), by decide⟩

/-! ## Using a reset token -/

theorem resetPassword_cases (rt : Runtime) (now : Nat) (db : List User)
    (resetToken : String) (password confirmPassword : Option String) :
    ((resetPassword rt now db resetToken password confirmPassword).1 = db ∧
      (resetPassword rt now db resetToken password confirmPassword).2.status = 400) ∨
    (∃ w, db.find? (holdsValidToken (rt.sha256 resetToken) now) = some w ∧
      ¬ (password.getD "" = "" ∨ confirmPassword.getD "" = "") ∧
      password = confirmPassword ∧ 6 ≤ utf16Length (password.getD "") ∧
      resetPassword rt now db resetToken password confirmPassword =
        (saveUser db { w with
            password := rt.bcryptHash (password.getD ""),
            resetPasswordToken := none,
            resetPasswordExpire := none },
          ⟨200, true, none,
            some "Password reset successful. You can now login with your new password.",
            none⟩)) := by
  cases hf : db.find? (holdsValidToken (rt.sha256 resetToken) now) with
  | none =>
    left
    simp [resetPassword, hf, invalidTokenResponse]
  | some w =>
    by_cases h1 : password.getD "" = "" ∨ confirmPassword.getD "" = ""
    · left
      simp [resetPassword, hf, h1]
    · by_cases h2 : password ≠ confirmPassword
      · left
        simp [resetPassword, hf, h1, h2]
      · by_cases h3 : utf16Length (password.getD "") < 6
        · left
          simp [resetPassword, hf, h1, h2, h3]
        · right
          refine ⟨w, rfl, h1, by simpa using h2, by omega, ?_⟩
          simp [resetPassword, hf, h1, h2, h3]

theorem resetPassword_rejects (rt : Runtime) (now : Nat) (db : List User)
    (resetToken : String) (password confirmPassword : Option String)
    (h : password.getD "" = "" ∨ confirmPassword.getD "" = "" ∨
      password ≠ confirmPassword ∨ utf16Length (password.getD "") < 6) :
    (resetPassword rt now db resetToken password confirmPassword).1 = db ∧
      (resetPassword rt now db resetToken password confirmPassword).2.status = 400 := by
  rcases resetPassword_cases rt now db resetToken password confirmPassword with hc | hc
  · exact hc
  · obtain ⟨w, _, h1, h2, h3, _⟩ := hc
    rcases h with h | h | h | h
    · exact absurd (Or.inl h) h1
    · exact absurd (Or.inr h) h1
    · exact absurd h2 h
    · omega

theorem noTokenHolder_after_success (rt : Runtime) (digest : String) (db : List User)
    (w : User) (pw : String) (hw : w ∈ db) (hwt : w.resetPasswordToken = some digest)
    (hown : TokenOwnedByOne digest db) :
    NoTokenHolder digest (saveUser db { w with
      password := rt.bcryptHash pw,
      resetPasswordToken := none,
      resetPasswordExpire := none }) := by
  intro u hu hut
  rcases mem_saveUser _ _ _ hu with h | h
  · rw [h.1] at hut
    simp at hut
  · exact h.2 (hown u h.1 w hw hut hwt)

theorem resetPassword_no_holder (rt : Runtime) (now : Nat) (db : List User)
    (resetToken : String) (password confirmPassword : Option String)
    (h : NoTokenHolder (rt.sha256 resetToken) db) :
    resetPassword rt now db resetToken password confirmPassword =
      (db, invalidTokenResponse) := by
  apply resetPassword_not_found
  intro u hu
  by_contra hp
  exact h u hu ((holdsValidToken_iff _ _ _).1 (by simpa using hp)).1

theorem resetAttempts_no_holder (rt : Runtime) (resetToken : String)
    (attempts : List ResetAttempt) :
    ∀ db, NoTokenHolder (rt.sha256 resetToken) db →
      resetAttempts rt resetToken db attempts =
        (db, attempts.map (fun _ => invalidTokenResponse)) := by
  induction attempts with
  | nil => intro db _; rfl
  | cons a rest ih =>
    intro db h
    simp only [resetAttempts, resetPassword_no_holder rt a.now db resetToken _ _ h, ih db h,
      List.map_cons]

theorem successCount_invalid (n : List ResetAttempt) :
    successCount (n.map (fun _ => invalidTokenResponse)) = 0 := by
  induction n with
  | nil => rfl
  | cons a rest ih =>
    simp only [List.map_cons, successCount, List.countP_cons] at ih ⊢
    rw [ih]
    rfl

theorem resetAttempts_success_le_one (rt : Runtime) (resetToken : String)
    (attempts : List ResetAttempt) :
    ∀ db, TokenOwnedByOne (rt.sha256 resetToken) db →
      successCount (resetAttempts rt resetToken db attempts).2 ≤ 1 := by
  induction attempts with
  | nil => intro db _; simp [resetAttempts, successCount]
  | cons a rest ih =>
    intro db hown
    rcases resetPassword_cases rt a.now db resetToken a.password a.confirmPassword
      with hc | ⟨w, hf, _, _, _, hres⟩
    · have h400 : ((resetPassword rt a.now db resetToken a.password
          a.confirmPassword).2.status == 200) = false := by
        rw [hc.2]
        rfl
      have := ih db hown
      simp only [resetAttempts, successCount, List.countP_cons, hc.1, h400] at this ⊢
      simpa using this
    · have hw := List.mem_of_find?_eq_some hf
      have hwt := ((holdsValidToken_iff _ _ _).1 (List.find?_some hf)).1
      have hno := noTokenHolder_after_success rt (rt.sha256 resetToken) db w
        (a.password.getD "") hw hwt hown
      simp only [resetAttempts, hres, resetAttempts_no_holder rt resetToken rest _ hno,
        successCount, List.countP_cons]
      have := successCount_invalid rest
      simp only [successCount] at this
      rw [this]
      rfl

/-- C21: a rejected attempt changes nothing and a reset token is used successfully at
most once. A `resetPassword` call with a missing or empty `password` or
`confirmPassword`, with differing values, or with a password of fewer than 6 characters
(`password.length < 6`) answers 400 and leaves the collection, so the password and the
reset token of the user, unchanged. A call answered 200 stores the new password for a
user that held the digest and clears `resetPasswordToken` and `resetPasswordExpire` of
that user, so that every later call with the same token answers 400 'Invalid or expired
reset token'; in any sequence of calls with the same token at most one is answered 200.
The token is taken to belong to one user: the records that store its digest share one
`_id`. -/
theorem reset_single_use (rt : Runtime) (now : Nat) (db : List User) (resetToken : String)
    (password confirmPassword : Option String) :
    ((password.getD "" = "" ∨ confirmPassword.getD "" = "" ∨
        password ≠ confirmPassword ∨ utf16Length (password.getD "") < 6) →
      (resetPassword rt now db resetToken password confirmPassword).2.status = 400 ∧
        (resetPassword rt now db resetToken password confirmPassword).1 = db) ∧
    ((resetPassword rt now db resetToken password confirmPassword).2.status = 200 →
      ∃ w ∈ db, w.resetPasswordToken = some (rt.sha256 resetToken) ∧
        (resetPassword rt now db resetToken password confirmPassword).1 =
          saveUser db { w with
            password := rt.bcryptHash (password.getD ""),
            resetPasswordToken := none,
            resetPasswordExpire := none } ∧
        (∀ v ∈ (resetPassword rt now db resetToken password confirmPassword).1,
          v.id = w.id → v.resetPasswordToken = none ∧ v.resetPasswordExpire = none) ∧
        (TokenOwnedByOne (rt.sha256 resetToken) db →
          ∀ (later : Nat) (password2 confirmPassword2 : Option String),
            resetPassword rt later
                (resetPassword rt now db resetToken password confirmPassword).1
                resetToken password2 confirmPassword2 =
              ((resetPassword rt now db resetToken password confirmPassword).1,
                invalidTokenResponse))) ∧
    (TokenOwnedByOne (rt.sha256 resetToken) db →
      ∀ attempts : List ResetAttempt,
        successCount (resetAttempts rt resetToken db attempts).2 ≤ 1) := by
  refine ⟨?_, ?_, ?_⟩
  · intro h
    have := resetPassword_rejects rt now db resetToken password confirmPassword h
    exact ⟨this.2, this.1⟩
  · intro h200
    rcases resetPassword_cases rt now db resetToken password confirmPassword
      with hc | ⟨w, hf, _, _, _, hres⟩
    · rw [hc.2] at h200
      exact absurd h200 (by decide)
    · have hw := List.mem_of_find?_eq_some hf
      have hwt := ((holdsValidToken_iff _ _ _).1 (List.find?_some hf)).1
      refine ⟨w, hw, hwt, by rw [hres], ?_, ?_⟩
      · rw [hres]
        intro v hv hid
        rcases mem_saveUser _ _ _ hv with h | h
        · rw [h.1]
          exact ⟨rfl, rfl⟩
        · exact absurd hid h.2
      · intro hown later password2 confirmPassword2
        rw [hres]
        exact resetPassword_no_holder rt later _ resetToken password2 confirmPassword2
          (noTokenHolder_after_success rt _ db w _ hw hwt hown)
  · intro hown attempts
    exact resetAttempts_success_le_one rt resetToken attempts db hown

theorem reset_single_use_witness :
    (((some "abc" : Option String).getD "" = "" ∨ (some "abc" : Option String).getD "" = "" ∨
        (some "abc" : Option String) ≠ some "abc" ∨
        utf16Length ((some "abc" : Option String).getD "") < 6) ∧
      (resetPassword exampleRuntime 2000 exampleUsersWithToken "abcd" (some "abc")
          (some "abc")).2.status = 400 ∧
      (resetPassword exampleRuntime 2000 exampleUsersWithToken "abcd" (some "abc")
          (some "abc")).1 = exampleUsersWithToken) ∧
    (TokenOwnedByOne (exampleRuntime.sha256 "abcd") exampleUsersWithToken ∧
      successCount (resetAttempts exampleRuntime "abcd" exampleUsersWithToken
        [⟨2000, some "abc", some "abc"⟩, ⟨2001, some "newpass", none⟩,
          ⟨2002, some "newpass", some "other12"⟩, ⟨2003, some "newpass", some "newpass"⟩,
          ⟨2004, some "again12", some "again12"⟩]).2 ≤ 1) ∧
    resetAttempts exampleRuntime "abcd" exampleUsersWithToken
        [⟨2000, some "abc", some "abc"⟩, ⟨2001, some "newpass", none⟩,
          ⟨2002, some "newpass", some "other12"⟩, ⟨2003, some "newpass", some "newpass"⟩,
          ⟨2004, some "again12", some "again12"⟩] =
      ([⟨1, "alice", "alice@example.com", "bcrypt:newpass", none, none⟩],
        [⟨400, false, some "Password must be at least 6 characters", none, some 400⟩,
          ⟨400, false, some "Please provide both password and confirm password", none,
            some 400⟩,
          ⟨400, false, some "Passwords do not match", none, some 400⟩,
          ⟨200, true, none,
            some "Password reset successful. You can now login with your new password.",
            none⟩,
          invalidTokenResponse]) := by
  have hrej : (some "abc" : Option String).getD "" = "" ∨
      (some "abc" : Option String).getD "" = "" ∨
      (some "abc" : Option String) ≠ some "abc" ∨
      utf16Length ((some "abc" : Option String).getD "") < 6 :=
    Or.inr (Or.inr (Or.inr (by decide)))
  have hown : TokenOwnedByOne (exampleRuntime.sha256 "abcd") exampleUsersWithToken := by
    intro u hu v hv _ _
    have hu1 : u = ⟨1, "alice", "alice@example.com", "bcrypt:secret1", some "sha256:abcd",
        some 601000⟩ := by simpa [exampleUsersWithToken] using hu
    have hv1 : v = ⟨1, "alice", "alice@example.com", "bcrypt:secret1", some "sha256:abcd",
        some 601000⟩ := by simpa [exampleUsersWithToken] using hv
    rw [hu1, hv1]
  have h := reset_single_use exampleRuntime 2000 exampleUsersWithToken "abcd" (some "abc")
    (some "abc")
  exact ⟨⟨hrej, h.1 hrej⟩, ⟨hown, h.2.2 hown _⟩, by decide⟩

end KnoEra
